import Mathlib

/-!
Verification of the collaborative-editor backend (src/backend/server.js and
src/backend/models/Document.js) against its natural-language specification.

The server is a single-process, event-driven socket server.  All socket
handlers run on one event loop and interleave only at awaited database
calls, so each handler is embedded as a pure function from server state to
server state plus a list of emitted socket events.  The concurrency-sensitive
join arbitration (the joiningDocs lock) is additionally embedded as an
explicit interleaving model (JoinSys below) whose scheduler may switch
threads exactly at the awaited store calls.

Machine integers: document versions and timestamps are JavaScript numbers
used only as counters; they are modelled as Nat.
-/

namespace CollabEditor

/-! ### Association lists

JavaScript Map objects (documentSessions, session.users) and the MongoDB
collection (one record per _id) are embedded as association lists with
unique keys.  lookupA finds the first binding, setA replaces the binding in
place (or appends), eraseA removes the binding. -/

def lookupA {α : Type} : List (String × α) → String → Option α
  | [], _ => none
  | (k, v) :: rest, key => if k = key then some v else lookupA rest key

def setA {α : Type} : List (String × α) → String → α → List (String × α)
  | [], key, v => [(key, v)]
  | (k, w) :: rest, key, v =>
      if k = key then (key, v) :: rest else (k, w) :: setA rest key v

def eraseA {α : Type} : List (String × α) → String → List (String × α)
  | [], _ => []
  | (k, w) :: rest, key => if k = key then rest else (k, w) :: eraseA rest key

/-- Keys of an association list are pairwise distinct (Map / collection
well-formedness). -/
def keysNodup {α : Type} (l : List (String × α)) : Prop :=
  (l.map Prod.fst).Nodup

/-! ### Data model

DocRecord embeds documentSchema from src/backend/models/Document.js.  The
schema fields are _id (the association-list key), title, content, version,
password (the stored bcrypt hash, optional), collaborators, activity, plus
the timestamps option.  NOTE: the schema defines NO chat path — the server
code pushes to a chat array and reads doc.chat, but documentSchema carries
no such field, so Mongoose strict mode (the default) silently strips every
chat update and doc.chat is always undefined.  DocRecord therefore has no
chat field, mirroring the schema exactly. -/

structure UserInfo where
  userId : String
  name : String
  color : String
  deriving DecidableEq

/-- Activity subdocument (activitySchema): message, a frozen snapshot of the
user, and the createdAt timestamp added by the timestamps option. -/
structure ActivityEntry where
  message : String
  user : UserInfo
  createdAt : Nat
  deriving DecidableEq

/-- Chat message object built in the send-chat-message handler (never
persisted, see DocRecord). -/
structure ChatEntry where
  id : String
  text : String
  user : UserInfo
  timestamp : Nat
  deriving DecidableEq

structure DocRecord where
  title : String
  content : String
  version : Nat
  password : Option String
  collaborators : List UserInfo
  activity : List ActivityEntry
  updatedAt : Nat
  deriving DecidableEq

/-- In-memory session value of the documentSessions map: working content,
version counter, and the socket-id-to-user map. -/
structure Session where
  content : String
  version : Nat
  users : List (String × UserInfo)
  deriving DecidableEq

/-- Whole-server state: the MongoDB collection (store), the documentSessions
map, socket.io room membership, and the joiningDocs lock set. -/
structure ServerState where
  store : List (String × DocRecord)
  sessions : List (String × Session)
  rooms : List (String × List String)
  joining : List String
  deriving DecidableEq

/-! ### Emitted events -/

inductive ServerEvent where
  | remoteOperation (operation : String) (version : Nat) (source : String)
  | documentState (content : String) (version : Nat) (title : String)
      (activityLog : List ActivityEntry) (hasPassword : Bool)
  | errorEvent (etype : String) (message : String)
  | passwordRequired (docId : String)
  | collaboratorsUpdated (collaborators : List UserInfo)
  | newActivity (entry : ActivityEntry)
  | receiveChatMessage (entry : ChatEntry)
  | userStartedTyping (username : String)
  | titleUpdated (title : String) (user : UserInfo)
  | passwordStatusUpdate (hasPassword : Bool)
  | toast (message : String)
  deriving DecidableEq

/-- Delivery scope of an emission: socket.emit (caller only),
socket.to(room).emit (everyone in the room except the sender), or
io.to(room).emit (everyone in the room including the sender). -/
inductive EmitTarget where
  | caller
  | others
  | all
  deriving DecidableEq

abbrev Emission := EmitTarget × ServerEvent

/-- Acknowledgement passed to the document-save ack callback. -/
inductive SaveAck where
  | saved
  | error (message : String)
  deriving DecidableEq

/-! ### Document id validation (isValidDocumentId) -/

/-- Embeds mongoose.Types.ObjectId.isValid on a string argument (bson):
true for any 12-character string, or a 24-character hex string. -/
def isMongoObjectId (s : String) : Bool :=
  s.toList.length == 12 ||
    (s.toList.length == 24 && s.toList.all (fun c =>
      c.isDigit || (('a' ≤ c && c ≤ 'f') || ('A' ≤ c && c ≤ 'F'))))

def isLowerAlnum (c : Char) : Bool :=
  ('a' ≤ c && c ≤ 'z') || c.isDigit

/-- Anchored match of the regex doc_ followed by exactly seven characters
from the class a-z0-9, on the string's characters. -/
def customIdChars (l : List Char) : Bool :=
  match l with
  | c1 :: c2 :: c3 :: c4 :: rest =>
      c1 == 'd' && c2 == 'o' && c3 == 'c' && c4 == '_' &&
        rest.length == 7 && rest.all isLowerAlnum
  | _ => false

/-- Embeds the regex test of isValidDocumentId. -/
def matchesCustomId (s : String) : Bool :=
  customIdChars s.toList

/-- Embeds isValidDocumentId from src/backend/server.js. -/
def isValidDocumentId (s : String) : Bool :=
  isMongoObjectId s || matchesCustomId s

/-- Stated from the SPEC's words for comparison (claim C9): the spec says a
document identifier is either a store-native unique id or doc_ followed by
SEVEN OR MORE lowercase alphanumerics. -/
def specValidDocumentId (s : String) : Bool :=
  isMongoObjectId s ||
    (match s.toList with
     | c1 :: c2 :: c3 :: c4 :: rest =>
         c1 == 'd' && c2 == 'o' && c3 == 'c' && c4 == '_' &&
           Nat.ble 7 rest.length && rest.all isLowerAlnum
     | _ => false)

/-! ### Activity logger (logAndBroadcastActivity) -/

/-- Comparator realising the MongoDB sort specification createdAt : -1
(newest first). -/
def activityNewestFirst (a b : ActivityEntry) : Bool :=
  decide (b.createdAt ≤ a.createdAt)

/-- MongoDB update operator push with each/sort/slice as used by
logAndBroadcastActivity: append the new entry, sort the whole array newest
first, keep only the first 50. -/
def pushSortSliceActivity (activity : List ActivityEntry) (entry : ActivityEntry) :
    List ActivityEntry :=
  ((activity ++ [entry]).mergeSort activityNewestFirst).take 50

/-- Embeds logAndBroadcastActivity at the store level: findByIdAndUpdate with
the push/sort/slice update (a no-op returning null when the document is
absent), then broadcast of the saved entry at index 0 to the whole room. -/
def logActivityStore (store : List (String × DocRecord)) (docId : String)
    (user : UserInfo) (message : String) (now : Nat) :
    List (String × DocRecord) × List Emission :=
  match lookupA store docId with
  | none => (store, [])
  | some d =>
      let entry : ActivityEntry :=
        { message := message
          user := { userId := user.userId, name := user.name, color := user.color }
          createdAt := now }
      let acts := pushSortSliceActivity d.activity entry
      let store1 := setA store docId { d with activity := acts }
      let ems : List Emission :=
        match acts.head? with
        | some savedActivity => [(EmitTarget.all, ServerEvent.newActivity savedActivity)]
        | none => []
      (store1, ems)

def logAndBroadcastActivity (st : ServerState) (docId : String) (user : UserInfo)
    (message : String) (now : Nat) : ServerState × List Emission :=
  let r := logActivityStore st.store docId user message now
  ({ st with store := r.1 }, r.2)

/-! ### text-operation handler -/

/-- Embeds the text-operation handler: if no session is cached for the id the
handler returns without any effect; otherwise it overwrites the session's
working content, increments its version, and broadcasts remote-operation to
the other members of the room.  The database is never touched. -/
def textOperation (st : ServerState) (senderSid : String) (documentId : String)
    (operation : String) : ServerState × List Emission :=
  match lookupA st.sessions documentId with
  | none => (st, [])
  | some s =>
      let s2 : Session := { s with content := operation, version := s.version + 1 }
      ({ st with sessions := setA st.sessions documentId s2 },
       [(EmitTarget.others, ServerEvent.remoteOperation operation s2.version senderSid)])

/-! ### document-save handler -/

/-- Embeds the document-save handler.  The session's content is refreshed and
its version read before the awaited write; the write stores content, version
and updatedAt (findByIdAndUpdate without upsert: absent id means nothing is
written).  storeOk models whether the awaited store call succeeds; on a store
failure the ack callback receives the error status instead. -/
def documentSave (st : ServerState) (docId : String) (content : String)
    (now : Nat) (storeOk : Bool) : ServerState × SaveAck :=
  let sessions2 :=
    match lookupA st.sessions docId with
    | none => st.sessions
    | some s => setA st.sessions docId { s with content := content }
  let versionToSave :=
    match lookupA st.sessions docId with
    | none => 1
    | some s => s.version
  if storeOk then
    let store2 :=
      match lookupA st.store docId with
      | none => st.store
      | some d =>
          setA st.store docId
            { d with content := content, version := versionToSave, updatedAt := now }
    ({ st with store := store2, sessions := sessions2 }, SaveAck.saved)
  else
    ({ st with sessions := sessions2 }, SaveAck.error "save failed")

/-! ### send-chat-message handler

The handler builds the chat message, broadcasts receive-chat-message to the
whole room, and then issues findByIdAndUpdate with a push to the chat path
capped with slice -50.  documentSchema defines no chat path, so Mongoose
strict mode (the schema default) strips the unknown path from the update:
the awaited call succeeds but writes nothing, and the stored record is
unchanged.  The embedding therefore leaves the state untouched. -/

def sendChatMessage (st : ServerState) (docId : String) (message : String)
    (user : UserInfo) (msgId : String) (now : Nat) : ServerState × List Emission :=
  let chatMsg : ChatEntry := { id := msgId, text := message, user := user, timestamp := now }
  (st, [(EmitTarget.all, ServerEvent.receiveChatMessage chatMsg)])

/-! ### Password guard (bcrypt capability, Document.js) -/

/-- Opaque one-way hash capability (bcrypt.hash via the pre-save hook),
modelled as an injective tagging of the plaintext. -/
def bcryptHash (plain : String) : String := "bcrypt-hash:" ++ plain

/-- Embeds bcrypt.compare as used by documentSchema.methods.comparePassword:
resolves to whether the candidate hashes to the stored hash, and rejects
with an error when the stored hash is undefined (no password field on the
record), as the bcrypt library does. -/
def bcryptCompare (candidate : String) (storedHash : Option String) : Except String Bool :=
  match storedHash with
  | none => Except.error "data and hash arguments required"
  | some h => Except.ok (h == bcryptHash candidate)

/-! ### socket.io rooms -/

/-- socket.join(docId): subscribe the socket to the room. -/
def roomJoin (rooms : List (String × List String)) (docId sid : String) :
    List (String × List String) :=
  match lookupA rooms docId with
  | none => setA rooms docId [sid]
  | some members => if sid ∈ members then rooms else setA rooms docId (members ++ [sid])

def roomMembers (rooms : List (String × List String)) (docId : String) : List String :=
  (lookupA rooms docId).getD []

/-! ### submit-password handler -/

/-- Embeds the submit-password handler.  The document is fetched (absence
throws, caught as an auth-error emission); comparePassword is called
UNCONDITIONALLY, even when the record stores no password hash, in which case
bcrypt rejects and the catch block emits an auth-error.  On a match the
handler joins the room, pulls then pushes the collaborator entry, seeds the
session if absent, attaches the socket, broadcasts the collaborator list,
logs the joined activity, re-reads the record and sends document-state to
the caller only. -/
def submitPassword (st : ServerState) (sid : String) (docId : String)
    (password : String) (user : UserInfo) (now : Nat) : ServerState × List Emission :=
  match lookupA st.store docId with
  | none => (st, [(EmitTarget.caller, ServerEvent.errorEvent "auth-error" "Document not found")])
  | some d =>
      match bcryptCompare password d.password with
      | Except.error msg =>
          (st, [(EmitTarget.caller, ServerEvent.errorEvent "auth-error" msg)])
      | Except.ok false =>
          (st, [(EmitTarget.caller, ServerEvent.errorEvent "auth-error" "Incorrect password")])
      | Except.ok true =>
          let rooms2 := roomJoin st.rooms docId sid
          let collabs2 := d.collaborators.filter (fun c => c.userId != user.userId) ++ [user]
          let d1 : DocRecord := { d with collaborators := collabs2 }
          let store1 := setA st.store docId d1
          let sessions1 :=
            match lookupA st.sessions docId with
            | none =>
                setA st.sessions docId
                  { content := d1.content, version := d1.version, users := [] }
            | some _ => st.sessions
          let sessions2 :=
            match lookupA sessions1 docId with
            | none => sessions1
            | some s => setA sessions1 docId { s with users := setA s.users sid user }
          let r := logActivityStore store1 docId user "joined" now
          let st2 : ServerState :=
            { st with rooms := rooms2, store := r.1, sessions := sessions2 }
          let tail :=
            match lookupA r.1 docId with
            | none => r.2
            | some dFinal =>
                r.2 ++ [(EmitTarget.caller,
                  ServerEvent.documentState dFinal.content dFinal.version dFinal.title
                    dFinal.activity dFinal.password.isSome)]
          (st2, (EmitTarget.all, ServerEvent.collaboratorsUpdated collabs2) :: tail)

/-! ### join-document handler (sequential run)

This is the join handler as executed without contention: the joiningDocs
check at the top drops the request when the id is already being joined;
otherwise the id is added and removed again in the finally block, so the
lock set of the resulting state equals the input's.  The interleaved
behaviour of the lock itself is verified separately on the JoinSys model. -/

def joinDocument (st : ServerState) (sid : String) (documentId : String)
    (user : UserInfo) (now : Nat) : ServerState × List Emission :=
  if documentId ∈ st.joining then (st, [])
  else if ¬ isValidDocumentId documentId then
    (st, [(EmitTarget.caller, ServerEvent.errorEvent "join-error" "Invalid document ID format")])
  else
    match lookupA st.store documentId with
    | none =>
        let entry : ActivityEntry :=
          { message := "joined"
            user := { userId := user.userId, name := user.name, color := user.color }
            createdAt := now }
        let newDoc : DocRecord :=
          { title := "Untitled Document", content := "", version := 0, password := none
            collaborators := [user], activity := [entry], updatedAt := now }
        let store1 := setA st.store documentId newDoc
        let rooms2 := roomJoin st.rooms documentId sid
        let sessions2 :=
          match lookupA st.sessions documentId with
          | none =>
              setA st.sessions documentId
                { content := newDoc.content, version := newDoc.version
                  users := [(sid, user)] }
          | some s =>
              setA st.sessions documentId { s with users := setA s.users sid user }
        ({ st with store := store1, rooms := rooms2, sessions := sessions2 },
         [(EmitTarget.all, ServerEvent.collaboratorsUpdated newDoc.collaborators),
          (EmitTarget.all, ServerEvent.newActivity entry),
          (EmitTarget.caller,
            ServerEvent.documentState newDoc.content newDoc.version newDoc.title
              newDoc.activity false)])
    | some d =>
        if d.password.isSome then
          (st, [(EmitTarget.caller, ServerEvent.passwordRequired documentId)])
        else
          let rooms2 := roomJoin st.rooms documentId sid
          let collabs2 := d.collaborators.filter (fun c => c.userId != user.userId) ++ [user]
          let d1 : DocRecord := { d with collaborators := collabs2 }
          let store1 := setA st.store documentId d1
          let r := logActivityStore store1 documentId user "joined" now
          let sessions1 :=
            match lookupA st.sessions documentId with
            | none =>
                setA st.sessions documentId
                  { content := d1.content, version := d1.version, users := [] }
            | some _ => st.sessions
          let sessions2 :=
            match lookupA sessions1 documentId with
            | none => sessions1
            | some s => setA sessions1 documentId { s with users := setA s.users sid user }
          let st2 : ServerState :=
            { st with rooms := rooms2, store := r.1, sessions := sessions2 }
          let emsMid := r.2 ++ [(EmitTarget.all, ServerEvent.collaboratorsUpdated collabs2)]
          let tail :=
            match lookupA r.1 documentId with
            | none => emsMid
            | some dFinal =>
                emsMid ++ [(EmitTarget.caller,
                  ServerEvent.documentState dFinal.content dFinal.version dFinal.title
                    dFinal.activity dFinal.password.isSome)]
          (st2, tail)

/-! ### disconnect handler -/

/-- Processing of one documentSessions entry by the disconnect handler: if
the closing socket was attached, remove it from the users map; when no other
connection shares the same userId, pull the collaborator entry from the
record, broadcast the shrunk list and log the left activity; when the users
map is now empty, flush the session's working content and version to the
store and evict the session (result none). -/
def disconnectOne (store : List (String × DocRecord)) (docId : String) (s : Session)
    (sid : String) (now : Nat) :
    List (String × DocRecord) × Option Session × List Emission :=
  match lookupA s.users sid with
  | none => (store, some s, [])
  | some user =>
      let users2 := eraseA s.users sid
      let remaining := users2.any (fun q => q.2.userId == user.userId)
      let stepA :=
        if remaining then (store, ([] : List Emission))
        else
          match lookupA store docId with
          | none => (store, [])
          | some d =>
              let d1 : DocRecord :=
                { d with collaborators := d.collaborators.filter (fun c => c.userId != user.userId) }
              let r := logActivityStore (setA store docId d1) docId user "left" now
              (r.1, (EmitTarget.all, ServerEvent.collaboratorsUpdated d1.collaborators) :: r.2)
      if users2.isEmpty then
        let storeB :=
          match lookupA stepA.1 docId with
          | none => stepA.1
          | some d => setA stepA.1 docId { d with content := s.content, version := s.version }
        (storeB, none, stepA.2)
      else
        (stepA.1, some { s with users := users2 }, stepA.2)

/-- The disconnect handler scans every live session for the closing socket. -/
def disconnectGo (store : List (String × DocRecord))
    (sessions : List (String × Session)) (sid : String) (now : Nat) :
    List (String × DocRecord) × List (String × Session) × List Emission :=
  match sessions with
  | [] => (store, [], [])
  | (docId, s) :: rest =>
      let r1 := disconnectOne store docId s sid now
      let r2 := disconnectGo r1.1 rest sid now
      match r1.2.1 with
      | none => (r2.1, r2.2.1, r1.2.2 ++ r2.2.2)
      | some s1 => (r2.1, (docId, s1) :: r2.2.1, r1.2.2 ++ r2.2.2)

def disconnect (st : ServerState) (sid : String) (now : Nat) :
    ServerState × List Emission :=
  let r := disconnectGo st.store st.sessions sid now
  ({ st with store := r.1, sessions := r.2.1 }, r.2.2)

/-- Record-level restatement of disconnectOne: every store call the handler
makes for one session targets exactly that session's document id, so the
handler's effect on the store is a function of the looked-up record alone.
Used to relate the scan over all sessions back to one document. -/
def disconnectDocResult (dOpt : Option DocRecord) (s : Session) (sid : String)
    (now : Nat) : Option DocRecord × Option Session :=
  match lookupA s.users sid with
  | none => (dOpt, some s)
  | some user =>
      let users2 := eraseA s.users sid
      let remaining := users2.any (fun q => q.2.userId == user.userId)
      let dMid :=
        if remaining then dOpt
        else
          dOpt.map (fun d =>
            { d with
              collaborators := d.collaborators.filter (fun c => c.userId != user.userId)
              activity := (pushSortSliceActivity d.activity
                { message := "left"
                  user := { userId := user.userId, name := user.name, color := user.color }
                  createdAt := now }) })
      if users2.isEmpty then
        (dMid.map (fun d => { d with content := s.content, version := s.version }), none)
      else
        (dMid, some { s with users := users2 })

/-! ### Version-discipline trace operations (claim C4)

The operations named by the claim: text-operation, document-save, and the
disconnect-time flush. -/

inductive EditorOp where
  | textOp (sid : String) (docId : String) (operation : String)
  | docSave (docId : String) (content : String) (now : Nat) (storeOk : Bool)
  | disconnectEvt (sid : String) (now : Nat)
  deriving DecidableEq

def applyOp (st : ServerState) (op : EditorOp) : ServerState :=
  match op with
  | EditorOp.textOp sid d o => (textOperation st sid d o).1
  | EditorOp.docSave d c now ok => (documentSave st d c now ok).1
  | EditorOp.disconnectEvt sid now => (disconnect st sid now).1

/-- Every live session's version counter is at least the persisted version of
its document (sessions are seeded from the persisted record and only ever
incremented). -/
def versionInvB (st : ServerState) : Bool :=
  st.sessions.all (fun p =>
    match lookupA st.store p.1 with
    | some d => Nat.ble d.version p.2.version
    | none => true)

/-- Every record persisted in both states has a version in the second state
at least as large as in the first. -/
def storeVersionsMono (st st2 : ServerState) : Bool :=
  st.store.all (fun p =>
    match lookupA st2.store p.1 with
    | some d2 => Nat.ble p.2.version d2.version
    | none => true)

def wfState (st : ServerState) : Prop :=
  keysNodup st.store ∧ keysNodup st.sessions

/-! ### Join arbitration under interleaving (claim C1)

Each concurrent join-document invocation for one fresh document identifier
is a thread; the event loop may switch threads only at the awaited store
calls.  The synchronous prefix of the handler (the joiningDocs membership
check plus the add) is a single atomic step.  pc values: start (before the
membership check), find (about to await findById), create (findById returned
null, about to await Document.create), post (the remaining awaited steps of
the handler, which touch no further document creation), release (about to
run the finally block), done, and dropped (the request returned at the
membership check).  A step's ok flag tells whether the awaited store call
succeeds; a failing call throws, and the catch plus finally path goes to
release. -/

inductive JoinPC where
  | start
  | find
  | create
  | post
  | release
  | done
  | dropped
  deriving DecidableEq

structure JoinThread where
  pc : JoinPC
  created : Bool
  deriving DecidableEq

structure JoinSys where
  locked : Bool
  docExists : Bool
  threads : List JoinThread
  deriving DecidableEq

def jstep (s : JoinSys) (i : Nat) (ok : Bool) : JoinSys :=
  match s.threads[i]? with
  | none => s
  | some t =>
      match t.pc with
      | JoinPC.start =>
          if s.locked then
            { s with threads := s.threads.set i { t with pc := JoinPC.dropped } }
          else
            { s with locked := true
                     threads := s.threads.set i { t with pc := JoinPC.find } }
      | JoinPC.find =>
          if ok then
            if s.docExists then
              { s with threads := s.threads.set i { t with pc := JoinPC.post } }
            else
              { s with threads := s.threads.set i { t with pc := JoinPC.create } }
          else
            { s with threads := s.threads.set i { t with pc := JoinPC.release } }
      | JoinPC.create =>
          if ok && !s.docExists then
            { s with docExists := true
                     threads := s.threads.set i { t with pc := JoinPC.post, created := true } }
          else
            { s with threads := s.threads.set i { t with pc := JoinPC.release } }
      | JoinPC.post =>
          { s with threads := s.threads.set i { t with pc := JoinPC.release } }
      | JoinPC.release =>
          { s with locked := false
                   threads := s.threads.set i { t with pc := JoinPC.done } }
      | JoinPC.done => s
      | JoinPC.dropped => s

def jrun (sched : List (Nat × Bool)) (s : JoinSys) : JoinSys :=
  match sched with
  | [] => s
  | (i, ok) :: rest => jrun rest (jstep s i ok)

/-- N simultaneous join requests for one never-before-seen document id. -/
def jinit (n : Nat) : JoinSys :=
  { locked := false, docExists := false
    threads := List.replicate n { pc := JoinPC.start, created := false } }

/-- A thread is inside the find-or-create sequence guarded by the lock. -/
def inCrit (pc : JoinPC) : Bool :=
  match pc with
  | JoinPC.find => true
  | JoinPC.create => true
  | JoinPC.post => true
  | JoinPC.release => true
  | _ => false

def critCount (s : JoinSys) : Nat :=
  (s.threads.filter (fun t => inCrit t.pc)).length

def createdCount (s : JoinSys) : Nat :=
  (s.threads.filter (fun t => t.created)).length

def finishedAll (s : JoinSys) : Bool :=
  s.threads.all (fun t => t.pc == JoinPC.done || t.pc == JoinPC.dropped)

def failFree (sched : List (Nat × Bool)) : Bool :=
  sched.all (fun p => p.2)

def createPcCount (s : JoinSys) : Nat :=
  (s.threads.filter (fun t => t.pc == JoinPC.create)).length

/-- Inductive invariant of the join arbitration: at most one thread is
inside the lock-guarded find-or-create sequence, and the lock is held
exactly while one is; once the document exists no thread is still about to
create it; and the number of successful creations matches existence. -/
def JInv (s : JoinSys) : Prop :=
  critCount s ≤ 1 ∧
  (s.locked = true ↔ critCount s = 1) ∧
  (s.docExists = true → createPcCount s = 0) ∧
  createdCount s = (if s.docExists = true then 1 else 0)

/-- Strengthened invariant for failure-free executions: threads past the
find/create phase witnessed an existing document, a dropped request implies
the lock was held by a thread that will create (or the document already
exists), and a finished thread implies the document exists. -/
def JInvF (s : JoinSys) : Prop :=
  JInv s ∧
  (∀ t ∈ s.threads, (t.pc = JoinPC.post ∨ t.pc = JoinPC.release) →
    s.docExists = true) ∧
  ((∃ t ∈ s.threads, t.pc = JoinPC.dropped) →
    (s.locked = true ∨ s.docExists = true)) ∧
  ((∃ t ∈ s.threads, t.pc = JoinPC.done) → s.docExists = true)

/-! ### Concrete fixtures used by witnesses and counterexamples -/

def wUser : UserInfo := { userId := "u1", name := "Alice", color := "red" }

def wUser2 : UserInfo := { userId := "u2", name := "Bob", color := "blue" }

def wDoc : DocRecord :=
  { title := "T", content := "old", version := 5, password := none
    collaborators := [wUser], activity := [], updatedAt := 0 }

def wState : ServerState :=
  { store := [("doc_abc1234", wDoc)], sessions := [], rooms := [], joining := [] }

def wDocPw : DocRecord :=
  { title := "T", content := "old", version := 5
    password := some (bcryptHash "secret1")
    collaborators := [wUser], activity := [], updatedAt := 0 }

def wStatePw : ServerState :=
  { store := [("doc_abc1234", wDocPw)], sessions := [], rooms := [], joining := [] }

def wSessionTwoTabs : Session :=
  { content := "live", version := 9, users := [("s1", wUser), ("s2", wUser)] }

def wSessionLastTab : Session :=
  { content := "live", version := 9, users := [("s2", wUser)] }

def wStateTwoTabs : ServerState :=
  { store := [("doc_abc1234", wDoc)]
    sessions := [("doc_abc1234", wSessionTwoTabs)], rooms := [], joining := [] }

def wStateLastTab : ServerState :=
  { store := [("doc_abc1234", wDoc)]
    sessions := [("doc_abc1234", wSessionLastTab)], rooms := [], joining := [] }

/-! ## Theorems -/

theorem lookupA_setA_self {α : Type} (l : List (String × α)) (k : String) (v : α) :
    lookupA (setA l k v) k = some v := by
  induction l with
  | nil => simp [setA, lookupA]
  | cons p rest ih =>
      by_cases h : p.1 = k
      · simp [setA, h, lookupA]
      · simp [setA, h, lookupA, ih]

theorem lookupA_setA_ne {α : Type} (l : List (String × α)) (k k2 : String) (v : α)
    (h : k ≠ k2) : lookupA (setA l k v) k2 = lookupA l k2 := by
  induction l with
  | nil => simp [setA, lookupA, h]
  | cons p rest ih =>
      by_cases hp : p.1 = k
      · simp [setA, hp, lookupA, h]
      · simp [setA, hp, lookupA, ih]

theorem mem_eraseA_of_key_ne {α : Type} (l : List (String × α)) (k : String)
    (q : String × α) (hq : q ∈ l) (hne : q.1 ≠ k) : q ∈ eraseA l k := by
  induction l with
  | nil => cases hq
  | cons p rest ih =>
      rw [List.mem_cons] at hq
      by_cases hp : p.1 = k
      · rcases hq with hq | hq
        · exact absurd (show q.1 = k by rw [hq]; exact hp) hne
        · simpa only [eraseA, if_pos hp] using hq
      · simp only [eraseA, if_neg hp, List.mem_cons]
        rcases hq with hq | hq
        · exact Or.inl (by rw [hq])
        · exact Or.inr (ih hq)

/-- Claim C2: the text-operation handler leaves the durable store untouched;
when a session exists for the id it overwrites the session content with the
operation, increments the version by exactly one, and emits remote-operation
with that operation and the new version to the room members other than the
sender; when no session exists it is a no-op. -/
theorem claim_C2_textOperation (st : ServerState) (sid documentId operation : String) :
    (textOperation st sid documentId operation).1.store = st.store ∧
    (match lookupA st.sessions documentId with
     | some s =>
         (textOperation st sid documentId operation).1.sessions =
           setA st.sessions documentId
             { s with content := operation, version := s.version + 1 } ∧
         (textOperation st sid documentId operation).2 =
           [(EmitTarget.others, ServerEvent.remoteOperation operation (s.version + 1) sid)]
     | none => textOperation st sid documentId operation = (st, [])) := by
  cases h : lookupA st.sessions documentId <;> simp [textOperation, h]

/-- Claim C3: a successful document-save stores exactly the submitted content
together with the live session's version (or the default version 1 when no
session exists) and the new updatedAt, and acknowledges saved; a failing
store write acknowledges the error status instead. -/
theorem claim_C3_documentSave (st : ServerState) (docId content : String) (now : Nat)
    (d : DocRecord) (hd : lookupA st.store docId = some d) :
    (documentSave st docId content now true).2 = SaveAck.saved ∧
    (match lookupA st.sessions docId with
     | some s =>
         lookupA (documentSave st docId content now true).1.store docId =
           some { d with content := content, version := s.version, updatedAt := now }
     | none =>
         lookupA (documentSave st docId content now true).1.store docId =
           some { d with content := content, version := 1, updatedAt := now }) ∧
    (documentSave st docId content now false).2 = SaveAck.error "save failed" := by
  refine ⟨rfl, ?_, rfl⟩
  cases hs : lookupA st.sessions docId <;>
    simp [documentSave, hd, hs, lookupA_setA_self]

theorem claim_C3_documentSave_witness :
    lookupA wState.store "doc_abc1234" = some wDoc ∧
    ((documentSave wState "doc_abc1234" "new" 7 true).2 = SaveAck.saved ∧
      (match lookupA wState.sessions "doc_abc1234" with
       | some s =>
           lookupA (documentSave wState "doc_abc1234" "new" 7 true).1.store "doc_abc1234" =
             some { wDoc with content := "new", version := s.version, updatedAt := 7 }
       | none =>
           lookupA (documentSave wState "doc_abc1234" "new" 7 true).1.store "doc_abc1234" =
             some { wDoc with content := "new", version := 1, updatedAt := 7 }) ∧
      (documentSave wState "doc_abc1234" "new" 7 false).2 = SaveAck.error "save failed") :=
  ⟨by decide, claim_C3_documentSave wState "doc_abc1234" "new" 7 wDoc (by decide)⟩

/-- Claim C4 counterexample: the persisted version is NOT monotone.  wState
persists the document at version 5 and has no live session; a document-save
then writes version 1, strictly below the previously persisted version. -/
theorem claim_C4_counterexample :
    (lookupA wState.store "doc_abc1234").map DocRecord.version = some 5 ∧
    lookupA wState.sessions "doc_abc1234" = none ∧
    (lookupA (documentSave wState "doc_abc1234" "new" 7 true).1.store
        "doc_abc1234").map DocRecord.version = some 1 ∧
    1 < 5 := by
  refine ⟨by decide, by decide, by decide, by decide⟩

/-- Claim C8 (code behaviour at the failing input): send-chat-message
broadcasts receive-chat-message with the built entry (one id, one entry) to
the whole room, but the server state — in particular the stored document
record — is completely unchanged, because documentSchema declares no chat
path and the strict-mode update strips the push.  No chat entry is ever
persisted. -/
theorem claim_C8_chat_broadcast_not_persisted (st : ServerState)
    (docId message msgId : String) (user : UserInfo) (now : Nat) :
    sendChatMessage st docId message user msgId now =
      (st, [(EmitTarget.all, ServerEvent.receiveChatMessage
        { id := msgId, text := message, user := user, timestamp := now })]) := rfl

/-- Claim C10 (code behaviour at the failing input): wState stores the
document with no password hash, yet submit-password invokes the compare
capability anyway; bcrypt rejects the undefined hash and the handler emits
auth-error for EVERY candidate password — the unprotected document behaves
as an unconditional auth failure, which the claim rules out. -/
theorem claim_C10_compare_without_hash (pw : String) :
    submitPassword wState "s1" "doc_abc1234" pw wUser 3 =
      (wState, [(EmitTarget.caller,
        ServerEvent.errorEvent "auth-error" "data and hash arguments required")]) := rfl

theorem mem_roomJoin_self (rooms : List (String × List String)) (docId sid : String) :
    sid ∈ roomMembers (roomJoin rooms docId sid) docId := by
  unfold roomJoin roomMembers
  cases h : lookupA rooms docId with
  | none => simp [lookupA_setA_self]
  | some members =>
      by_cases hm : sid ∈ members
      · simp [hm, h]
      · simp [hm, lookupA_setA_self]

theorem userInfo_eta (u : UserInfo) :
    ({ userId := u.userId, name := u.name, color := u.color } : UserInfo) = u := rfl

theorem pushSortSliceActivity_sorted (l : List ActivityEntry) (e : ActivityEntry) :
    List.Pairwise (fun a b => b.createdAt ≤ a.createdAt) (pushSortSliceActivity l e) := by
  have htrans : ∀ a b c : ActivityEntry,
      activityNewestFirst a b → activityNewestFirst b c → activityNewestFirst a c := by
    intro a b c hab hbc
    simp only [activityNewestFirst, decide_eq_true_eq] at hab hbc ⊢
    exact le_trans hbc hab
  have htotal : ∀ a b : ActivityEntry,
      activityNewestFirst a b || activityNewestFirst b a := by
    intro a b
    simp only [activityNewestFirst]
    rcases Nat.le_total b.createdAt a.createdAt with h | h <;> simp [h]
  have hs := List.sorted_mergeSort htrans htotal (l ++ [e])
  have hs2 : List.Pairwise (fun a b => b.createdAt ≤ a.createdAt)
      ((l ++ [e]).mergeSort activityNewestFirst) :=
    hs.imp (fun h => by
      simpa only [activityNewestFirst, decide_eq_true_eq] using h)
  exact hs2.sublist (List.take_sublist _ _)

theorem pushSortSliceActivity_ne_nil (l : List ActivityEntry) (e : ActivityEntry) :
    pushSortSliceActivity l e ≠ [] := by
  unfold pushSortSliceActivity
  intro h
  have hlen := congrArg List.length h
  simp only [List.length_take, List.length_mergeSort, List.length_append,
    List.length_cons, List.length_nil, List.length_nil] at hlen
  omega

/-- Claim C5: on a password-protected document, submit-password with the
correct plaintext joins the socket to the room and emits document-state to
the caller exactly once (the emission list is exactly the collaborator
update, the joined activity, and one document-state); with an incorrect
plaintext the handler emits only an auth-error to the caller, leaving the
whole state — rooms, sessions, and in particular the record's collaborators
— unchanged. -/
theorem claim_C5_submitPassword (st : ServerState) (sid docId password : String)
    (user : UserInfo) (now : Nat) (d : DocRecord) (h : String)
    (hd : lookupA st.store docId = some d) (hpw : d.password = some h) :
    (h = bcryptHash password →
      sid ∈ roomMembers (submitPassword st sid docId password user now).1.rooms docId ∧
      ∃ a : ActivityEntry,
        (submitPassword st sid docId password user now).2 =
          [(EmitTarget.all, ServerEvent.collaboratorsUpdated
              (d.collaborators.filter (fun c => c.userId != user.userId) ++ [user])),
           (EmitTarget.all, ServerEvent.newActivity a),
           (EmitTarget.caller, ServerEvent.documentState d.content d.version d.title
              (pushSortSliceActivity d.activity
                { message := "joined", user := user, createdAt := now })
              true)]) ∧
    (h ≠ bcryptHash password →
      submitPassword st sid docId password user now =
        (st, [(EmitTarget.caller,
          ServerEvent.errorEvent "auth-error" "Incorrect password")])) := by
  constructor
  · intro hcorrect
    have hok : (h == bcryptHash password) = true := by
      rw [hcorrect]
      exact beq_self_eq_true _
    obtain ⟨a, t, hat⟩ := List.exists_cons_of_ne_nil
      (pushSortSliceActivity_ne_nil d.activity
        { message := "joined", user := user, createdAt := now })
    have hhead : (pushSortSliceActivity d.activity
        { message := "joined", user := user, createdAt := now }).head? = some a := by
      rw [hat]; rfl
    constructor
    · simp only [submitPassword, hd, hpw, bcryptCompare, hok]
      exact mem_roomJoin_self st.rooms docId sid
    · refine ⟨a, ?_⟩
      simp only [submitPassword, hd, hpw, bcryptCompare, hok, logActivityStore,
        lookupA_setA_self, userInfo_eta, hhead, hpw]
      simp [hpw]
  · intro hwrong
    have hok : (h == bcryptHash password) = false := by
      simp only [beq_eq_false_iff_ne, ne_eq]
      exact hwrong
    simp [submitPassword, hd, hpw, bcryptCompare, hok]

theorem claim_C5_submitPassword_witness :
    lookupA wStatePw.store "doc_abc1234" = some wDocPw ∧
    wDocPw.password = some (bcryptHash "secret1") ∧
    bcryptHash "secret1" ≠ bcryptHash "bad" ∧
    submitPassword wStatePw "s1" "doc_abc1234" "bad" wUser2 4 =
      (wStatePw, [(EmitTarget.caller,
        ServerEvent.errorEvent "auth-error" "Incorrect password")]) ∧
    "s1" ∈ roomMembers
      (submitPassword wStatePw "s1" "doc_abc1234" "secret1" wUser2 4).1.rooms
      "doc_abc1234" :=
  ⟨by decide, by decide, by decide,
    (claim_C5_submitPassword wStatePw "s1" "doc_abc1234" "bad" wUser2 4 wDocPw
        (bcryptHash "secret1") (by decide) (by decide)).2 (by decide),
    ((claim_C5_submitPassword wStatePw "s1" "doc_abc1234" "secret1" wUser2 4 wDocPw
        (bcryptHash "secret1") (by decide) (by decide)).1 rfl).1⟩

/-- Claim C7: after any insertion through the activity logger on a stored
document, the persisted activity log has length at most 50, is ordered
newest-first by createdAt, and the single newest entry (the head of the
sorted log, whose createdAt is maximal) is broadcast to the whole room. -/
theorem claim_C7_activity_log (st : ServerState) (docId : String) (user : UserInfo)
    (message : String) (now : Nat) (d : DocRecord)
    (hd : lookupA st.store docId = some d) :
    (logAndBroadcastActivity st docId user message now).1.store =
      setA st.store docId { d with activity :=
        (pushSortSliceActivity d.activity
          { message := message, user := user, createdAt := now }) } ∧
    (pushSortSliceActivity d.activity
        { message := message, user := user, createdAt := now }).length ≤ 50 ∧
    List.Pairwise (fun a b => b.createdAt ≤ a.createdAt)
      (pushSortSliceActivity d.activity
        { message := message, user := user, createdAt := now }) ∧
    ∃ a, (pushSortSliceActivity d.activity
        { message := message, user := user, createdAt := now }).head? = some a ∧
      (logAndBroadcastActivity st docId user message now).2 =
        [(EmitTarget.all, ServerEvent.newActivity a)] ∧
      ∀ b ∈ pushSortSliceActivity d.activity
          { message := message, user := user, createdAt := now },
        b.createdAt ≤ a.createdAt := by
  have hne := pushSortSliceActivity_ne_nil d.activity
    { message := message, user := user, createdAt := now }
  obtain ⟨a, t, hat⟩ := List.exists_cons_of_ne_nil hne
  have hsorted := pushSortSliceActivity_sorted d.activity
    { message := message, user := user, createdAt := now }
  have hhead : (pushSortSliceActivity d.activity
      { message := message, user := user, createdAt := now }).head? = some a := by
    rw [hat]; rfl
  refine ⟨?_, ?_, hsorted, a, hhead, ?_, ?_⟩
  · simp only [logAndBroadcastActivity, logActivityStore, hd, userInfo_eta, hhead]
  · exact le_trans (List.length_take_le _ _) (le_refl 50)
  · simp only [logAndBroadcastActivity, logActivityStore, hd, userInfo_eta, hhead]
  · intro b hb
    rw [hat] at hb hsorted
    rcases List.mem_cons.mp hb with h | h
    · rw [h]
    · exact List.rel_of_pairwise_cons hsorted h

theorem claim_C7_activity_log_witness :
    lookupA wState.store "doc_abc1234" = some wDoc ∧
    ((logAndBroadcastActivity wState "doc_abc1234" wUser "cleared the document" 9).1.store =
        setA wState.store "doc_abc1234" { wDoc with activity :=
          (pushSortSliceActivity wDoc.activity
            { message := "cleared the document", user := wUser, createdAt := 9 }) } ∧
      (pushSortSliceActivity wDoc.activity
          { message := "cleared the document", user := wUser, createdAt := 9 }).length ≤ 50 ∧
      List.Pairwise (fun a b => b.createdAt ≤ a.createdAt)
        (pushSortSliceActivity wDoc.activity
          { message := "cleared the document", user := wUser, createdAt := 9 }) ∧
      ∃ a, (pushSortSliceActivity wDoc.activity
          { message := "cleared the document", user := wUser, createdAt := 9 }).head? = some a ∧
        (logAndBroadcastActivity wState "doc_abc1234" wUser "cleared the document" 9).2 =
          [(EmitTarget.all, ServerEvent.newActivity a)] ∧
        ∀ b ∈ pushSortSliceActivity wDoc.activity
            { message := "cleared the document", user := wUser, createdAt := 9 },
          b.createdAt ≤ a.createdAt) :=
  ⟨by decide,
    claim_C7_activity_log wState "doc_abc1234" wUser "cleared the document" 9 wDoc (by decide)⟩

/-- Claim C9 counterexample: the claimed acceptance condition (store-native
id, or doc_ followed by SEVEN OR MORE lowercase alphanumerics) accepts
doc_aaaaaaaaa, but isValidDocumentId rejects it: the code's regex demands
exactly seven trailing characters. -/
theorem claim_C9_counterexample :
    specValidDocumentId "doc_aaaaaaaaa" = true ∧
    isValidDocumentId "doc_aaaaaaaaa" = false := by
  refine ⟨by decide, by decide⟩

/-- Claim C9 (amended): isValidDocumentId accepts exactly the store-native
ids plus doc_ followed by EXACTLY seven lowercase alphanumerics; and a
join-document request whose identifier fails the check (and is not being
concurrently joined) terminates with a join-error emission, leaving the
whole server state — store, sessions, rooms, lock set — unchanged. -/
theorem claim_C9_amended :
    (∀ s : String, isValidDocumentId s = true ↔
        (isMongoObjectId s = true ∨
          ∃ rest : List Char, s.toList = 'd' :: 'o' :: 'c' :: '_' :: rest ∧
            rest.length = 7 ∧ ∀ c ∈ rest, isLowerAlnum c = true)) ∧
    (∀ (st : ServerState) (sid id : String) (user : UserInfo) (now : Nat),
        id ∉ st.joining → isValidDocumentId id = false →
        joinDocument st sid id user now =
          (st, [(EmitTarget.caller,
            ServerEvent.errorEvent "join-error" "Invalid document ID format")])) := by
  constructor
  · intro s
    have hcustom : matchesCustomId s = true ↔
        ∃ rest : List Char, s.toList = 'd' :: 'o' :: 'c' :: '_' :: rest ∧
          rest.length = 7 ∧ ∀ c ∈ rest, isLowerAlnum c = true := by
      unfold matchesCustomId
      cases h1 : s.toList with
      | nil => simp [customIdChars]
      | cons c1 t1 =>
          cases t1 with
          | nil => simp [customIdChars]
          | cons c2 t2 =>
              cases t2 with
              | nil => simp [customIdChars]
              | cons c3 t3 =>
                  cases t3 with
                  | nil => simp [customIdChars]
                  | cons c4 rest =>
                      simp [customIdChars, List.all_eq_true, and_assoc,
                        eq_comm (a := c1)]
    rw [isValidDocumentId, Bool.or_eq_true, hcustom]
  · intro st sid id user now hmem hinvalid
    simp [joinDocument, hmem, hinvalid]

theorem logActivityStore_store_frame (store : List (String × DocRecord))
    (docId k : String) (user : UserInfo) (message : String) (now : Nat)
    (h : docId ≠ k) :
    lookupA (logActivityStore store docId user message now).1 k = lookupA store k := by
  unfold logActivityStore
  cases hd : lookupA store docId with
  | none => rfl
  | some d => simp [lookupA_setA_ne _ _ _ _ h]

theorem logActivityStore_lookup_self (store : List (String × DocRecord))
    (docId : String) (user : UserInfo) (message : String) (now : Nat) :
    lookupA (logActivityStore store docId user message now).1 docId =
      (lookupA store docId).map (fun d =>
        { d with activity := (pushSortSliceActivity d.activity
            { message := message, user := user, createdAt := now }) }) := by
  unfold logActivityStore
  cases hd : lookupA store docId with
  | none => simpa using hd
  | some d => simp [lookupA_setA_self, userInfo_eta]

theorem disconnectOne_store_frame (store : List (String × DocRecord))
    (docId : String) (s : Session) (sid : String) (now : Nat) (k : String)
    (h : docId ≠ k) :
    lookupA (disconnectOne store docId s sid now).1 k = lookupA store k := by
  unfold disconnectOne
  cases hu : lookupA s.users sid with
  | none => rfl
  | some user =>
      by_cases hrem : (eraseA s.users sid).any (fun q => q.2.userId == user.userId) = true
      · by_cases he : (eraseA s.users sid).isEmpty = true
        · cases hd : lookupA store docId <;>
            simp [hrem, he, hd, lookupA_setA_ne _ _ _ _ h]
        · simp [hrem, he]
      · rw [Bool.not_eq_true] at hrem
        by_cases he : (eraseA s.users sid).isEmpty = true
        · cases hd : lookupA store docId with
          | none => simp [hrem, he, hd]
          | some d =>
              simp only [hrem, he, hd, Bool.false_eq_true, if_false, if_true]
              rw [logActivityStore_lookup_self]
              simp [lookupA_setA_self, lookupA_setA_ne _ _ _ _ h,
                logActivityStore_store_frame _ _ _ _ _ _ h]
        · cases hd : lookupA store docId with
          | none => simp [hrem, he, hd]
          | some d =>
              simp [hrem, he, hd, lookupA_setA_ne _ _ _ _ h,
                logActivityStore_store_frame _ _ _ _ _ _ h]

theorem disconnectOne_at (store : List (String × DocRecord)) (docId : String)
    (s : Session) (sid : String) (now : Nat) :
    lookupA (disconnectOne store docId s sid now).1 docId =
      (disconnectDocResult (lookupA store docId) s sid now).1 ∧
    (disconnectOne store docId s sid now).2.1 =
      (disconnectDocResult (lookupA store docId) s sid now).2 := by
  unfold disconnectOne disconnectDocResult
  cases hu : lookupA s.users sid with
  | none => exact ⟨rfl, rfl⟩
  | some user =>
      by_cases hrem : (eraseA s.users sid).any (fun q => q.2.userId == user.userId) = true
      · by_cases he : (eraseA s.users sid).isEmpty = true
        · cases hd : lookupA store docId <;> simp [hrem, he, hd, lookupA_setA_self]
        · simp [hrem, he]
      · rw [Bool.not_eq_true] at hrem
        by_cases he : (eraseA s.users sid).isEmpty = true
        · cases hd : lookupA store docId with
          | none => simp [hrem, he, hd]
          | some d =>
              simp only [hrem, he, hd, Bool.false_eq_true, if_false, if_true]
              rw [logActivityStore_lookup_self]
              simp [lookupA_setA_self]
        · cases hd : lookupA store docId with
          | none => simp [hrem, he, hd]
          | some d =>
              simp only [hrem, he, hd, Bool.false_eq_true, if_false]
              rw [logActivityStore_lookup_self]
              simp [lookupA_setA_self]

theorem disconnectGo_store_frame (sessions : List (String × Session))
    (store : List (String × DocRecord)) (sid : String) (now : Nat) (k : String)
    (h : ∀ p ∈ sessions, p.1 ≠ k) :
    lookupA (disconnectGo store sessions sid now).1 k = lookupA store k := by
  induction sessions generalizing store with
  | nil => rfl
  | cons p rest ih =>
      obtain ⟨k1, s1⟩ := p
      have h1 : k1 ≠ k := h (k1, s1) (List.mem_cons_self _ _)
      have h2 : ∀ q ∈ rest, q.1 ≠ k := fun q hq => h q (List.mem_cons_of_mem _ hq)
      cases hopt : (disconnectOne store k1 s1 sid now).2.1 <;>
        simp [disconnectGo, hopt, ih _ h2, disconnectOne_store_frame _ _ _ _ _ _ h1]

theorem disconnectGo_sessions_frame (sessions : List (String × Session))
    (store : List (String × DocRecord)) (sid : String) (now : Nat) (k : String)
    (h : ∀ p ∈ sessions, p.1 ≠ k) :
    lookupA (disconnectGo store sessions sid now).2.1 k = none := by
  induction sessions generalizing store with
  | nil => rfl
  | cons p rest ih =>
      obtain ⟨k1, s1⟩ := p
      have h1 : k1 ≠ k := h (k1, s1) (List.mem_cons_self _ _)
      have h2 : ∀ q ∈ rest, q.1 ≠ k := fun q hq => h q (List.mem_cons_of_mem _ hq)
      cases hopt : (disconnectOne store k1 s1 sid now).2.1 <;>
        simp [disconnectGo, hopt, ih _ h2, lookupA, h1]

theorem disconnectGo_at (sessions : List (String × Session))
    (store : List (String × DocRecord)) (sid : String) (now : Nat)
    (docId : String) (s : Session)
    (hnd : keysNodup sessions) (hs : lookupA sessions docId = some s) :
    lookupA (disconnectGo store sessions sid now).1 docId =
      (disconnectDocResult (lookupA store docId) s sid now).1 ∧
    lookupA (disconnectGo store sessions sid now).2.1 docId =
      (disconnectDocResult (lookupA store docId) s sid now).2 := by
  induction sessions generalizing store with
  | nil => simp [lookupA] at hs
  | cons p rest ih =>
      obtain ⟨k1, s1⟩ := p
      rw [keysNodup, List.map_cons, List.nodup_cons] at hnd
      by_cases hk : k1 = docId
      · subst hk
        have hs1 : s1 = s := by simpa [lookupA] using hs
        subst hs1
        have hrest : ∀ q ∈ rest, q.1 ≠ k1 := by
          intro q hq hqe
          exact hnd.1 (List.mem_map.mpr ⟨q, hq, hqe⟩)
        have h1 := disconnectOne_at store k1 s1 sid now
        cases hopt : (disconnectOne store k1 s1 sid now).2.1 with
        | none =>
            rw [hopt] at h1
            refine ⟨?_, ?_⟩
            · simp only [disconnectGo, hopt]
              rw [disconnectGo_store_frame rest _ sid now k1 hrest, h1.1]
            · simp only [disconnectGo, hopt]
              rw [disconnectGo_sessions_frame rest _ sid now k1 hrest, ← h1.2]
        | some s2 =>
            rw [hopt] at h1
            refine ⟨?_, ?_⟩
            · simp only [disconnectGo, hopt]
              rw [disconnectGo_store_frame rest _ sid now k1 hrest, h1.1]
            · simp only [disconnectGo, hopt, lookupA, if_pos rfl]
              simpa using h1.2
      · have hs2 : lookupA rest docId = some s := by simpa [lookupA, hk] using hs
        have hih := ih ((disconnectOne store k1 s1 sid now).1) hnd.2 hs2
        have hfr := disconnectOne_store_frame store k1 s1 sid now docId hk
        cases hopt : (disconnectOne store k1 s1 sid now).2.1 with
        | none =>
            refine ⟨?_, ?_⟩
            · simp only [disconnectGo, hopt]
              rw [hih.1, hfr]
            · simp only [disconnectGo, hopt]
              rw [hih.2, hfr]
        | some s2 =>
            refine ⟨?_, ?_⟩
            · simp only [disconnectGo, hopt]
              rw [hih.1, hfr]
            · simp only [disconnectGo, hopt, lookupA, if_neg hk]
              rw [hih.2, hfr]

theorem lookupA_some_mem {α : Type} (l : List (String × α)) (k : String) (v : α)
    (h : lookupA l k = some v) : (k, v) ∈ l := by
  induction l with
  | nil => simp [lookupA] at h
  | cons p rest ih =>
      by_cases hp : p.1 = k
      · rw [lookupA, if_pos hp] at h
        injection h with h2
        rw [List.mem_cons]
        exact Or.inl (by rw [← hp, ← h2])
      · rw [lookupA, if_neg hp] at h
        exact List.mem_cons_of_mem _ (ih h)

theorem lookupA_of_mem_nodup {α : Type} (l : List (String × α)) (p : String × α)
    (hnd : keysNodup l) (hp : p ∈ l) : lookupA l p.1 = some p.2 := by
  induction l with
  | nil => cases hp
  | cons q rest ih =>
      rw [keysNodup, List.map_cons, List.nodup_cons] at hnd
      rcases List.mem_cons.mp hp with hp | hp
      · rw [hp]
        simp [lookupA]
      · have hne : q.1 ≠ p.1 := by
          intro he
          exact hnd.1 (he ▸ List.mem_map.mpr ⟨p, hp, rfl⟩)
        simp only [lookupA, if_neg hne]
        exact ih hnd.2 hp

theorem lookupA_eq_none_keys {α : Type} (l : List (String × α)) (k : String)
    (h : lookupA l k = none) : ∀ q ∈ l, q.1 ≠ k := by
  induction l with
  | nil => intro q hq; cases hq
  | cons p rest ih =>
      intro q hq
      by_cases hp : p.1 = k
      · rw [lookupA, if_pos hp] at h
        cases h
      · rw [lookupA, if_neg hp] at h
        rcases List.mem_cons.mp hq with hq | hq
        · rw [hq]; exact hp
        · exact ih h q hq

theorem lookupA_isSome_of_mem_keys {α : Type} (l : List (String × α)) (k : String)
    (h : k ∈ l.map Prod.fst) : (lookupA l k).isSome = true := by
  cases hl : lookupA l k with
  | some v => rfl
  | none =>
      obtain ⟨q, hq, hqk⟩ := List.mem_map.mp h
      exact absurd hqk (lookupA_eq_none_keys l k hl q hq)

theorem mem_setA {α : Type} (l : List (String × α)) (k : String) (v : α)
    (p : String × α) (hp : p ∈ setA l k v) : p = (k, v) ∨ p ∈ l := by
  induction l with
  | nil => simpa [setA] using hp
  | cons q rest ih =>
      by_cases hq : q.1 = k
      · rw [setA, if_pos hq] at hp
        rcases List.mem_cons.mp hp with hp | hp
        · exact Or.inl hp
        · exact Or.inr (List.mem_cons_of_mem _ hp)
      · rw [setA, if_neg hq] at hp
        rcases List.mem_cons.mp hp with hp | hp
        · exact Or.inr (by rw [hp]; exact List.mem_cons_self _ _)
        · rcases ih hp with hp | hp
          · exact Or.inl hp
          · exact Or.inr (List.mem_cons_of_mem _ hp)

theorem keys_setA_of_present {α : Type} (l : List (String × α)) (k : String)
    (v v0 : α) (h : lookupA l k = some v0) :
    (setA l k v).map Prod.fst = l.map Prod.fst := by
  induction l with
  | nil => simp [lookupA] at h
  | cons q rest ih =>
      by_cases hq : q.1 = k
      · simp [setA, hq]
      · rw [lookupA, if_neg hq] at h
        simp [setA, hq, ih h]

theorem keysNodup_setA {α : Type} (l : List (String × α)) (k : String) (v : α)
    (hnd : keysNodup l) : keysNodup (setA l k v) := by
  cases hl : lookupA l k with
  | some v0 =>
      rw [keysNodup, keys_setA_of_present l k v v0 hl]
      exact hnd
  | none =>
      have hk : k ∉ l.map Prod.fst := by
        intro hmem
        have hsome := lookupA_isSome_of_mem_keys l k hmem
        rw [hl] at hsome
        cases hsome
      clear hl
      induction l with
      | nil => simp [setA, keysNodup]
      | cons q rest ih =>
          rw [keysNodup, List.map_cons, List.nodup_cons] at hnd
          rw [List.map_cons, List.mem_cons] at hk
          push_neg at hk
          by_cases hq : q.1 = k
          · exact absurd hq.symm hk.1
          · rw [setA, if_neg hq, keysNodup, List.map_cons, List.nodup_cons]
            refine ⟨?_, ih hnd.2 hk.2⟩
            intro hmem
            rcases List.mem_map.mp hmem with ⟨p, hp, hpk⟩
            rcases mem_setA rest k v p hp with hp2 | hp2
            · exact hq (by rw [← hpk, hp2])
            · exact hnd.1 (by rw [← hpk]; exact List.mem_map.mpr ⟨p, hp2, rfl⟩)

theorem logActivityStore_keys (store : List (String × DocRecord)) (docId : String)
    (user : UserInfo) (message : String) (now : Nat) :
    (logActivityStore store docId user message now).1.map Prod.fst =
      store.map Prod.fst := by
  unfold logActivityStore
  cases hd : lookupA store docId with
  | none => rfl
  | some d => simpa using keys_setA_of_present store docId _ d hd

theorem disconnectOne_store_keys (store : List (String × DocRecord))
    (docId : String) (s : Session) (sid : String) (now : Nat) :
    (disconnectOne store docId s sid now).1.map Prod.fst = store.map Prod.fst := by
  unfold disconnectOne
  cases hu : lookupA s.users sid with
  | none => rfl
  | some user =>
      by_cases hrem : (eraseA s.users sid).any (fun q => q.2.userId == user.userId) = true
      · by_cases he : (eraseA s.users sid).isEmpty = true
        · cases hd : lookupA store docId with
          | none => simp [hrem, he, hd]
          | some d => simp [hrem, he, hd, keys_setA_of_present store docId _ d hd]
        · simp [hrem, he]
      · rw [Bool.not_eq_true] at hrem
        cases hd : lookupA store docId with
        | none =>
            by_cases he : (eraseA s.users sid).isEmpty = true <;> simp [hrem, he, hd]
        | some d =>
            have hk1 := keys_setA_of_present store docId
              { d with collaborators :=
                  (d.collaborators.filter (fun c => c.userId != user.userId)) } d hd
            by_cases he : (eraseA s.users sid).isEmpty = true
            · have hA := logActivityStore_lookup_self
                (setA store docId { d with collaborators :=
                  (d.collaborators.filter (fun c => c.userId != user.userId)) })
                docId user "left" now
              rw [lookupA_setA_self, Option.map_some'] at hA
              simp only [hrem, he, hd, Bool.false_eq_true, if_false, if_true, hA]
              rw [keys_setA_of_present _ docId _ _ hA, logActivityStore_keys, hk1]
            · simp only [hrem, he, hd, Bool.false_eq_true, if_false]
              rw [logActivityStore_keys, hk1]

theorem disconnectGo_store_keys (sessions : List (String × Session))
    (store : List (String × DocRecord)) (sid : String) (now : Nat) :
    (disconnectGo store sessions sid now).1.map Prod.fst = store.map Prod.fst := by
  induction sessions generalizing store with
  | nil => rfl
  | cons p rest ih =>
      obtain ⟨k1, s1⟩ := p
      cases hopt : (disconnectOne store k1 s1 sid now).2.1 <;>
        simp [disconnectGo, hopt, ih, disconnectOne_store_keys]

theorem disconnectGo_sessions_keys_sublist (sessions : List (String × Session))
    (store : List (String × DocRecord)) (sid : String) (now : Nat) :
    ((disconnectGo store sessions sid now).2.1.map Prod.fst).Sublist
      (sessions.map Prod.fst) := by
  induction sessions generalizing store with
  | nil => simp [disconnectGo]
  | cons p rest ih =>
      obtain ⟨k1, s1⟩ := p
      cases hopt : (disconnectOne store k1 s1 sid now).2.1 with
      | none =>
          simp only [disconnectGo, hopt, List.map_cons]
          exact (ih _).trans (List.sublist_cons_self _ _)
      | some s2 =>
          simp only [disconnectGo, hopt, List.map_cons]
          exact List.Sublist.cons₂ _ (ih _)

theorem disconnectDocResult_version (dOpt : Option DocRecord) (s : Session)
    (sid : String) (now : Nat) :
    (∀ s2, (disconnectDocResult dOpt s sid now).2 = some s2 →
      s2.version = s.version) ∧
    (∀ d2, (disconnectDocResult dOpt s sid now).1 = some d2 →
      ∃ d, dOpt = some d ∧ (d2.version = d.version ∨ d2.version = s.version)) := by
  unfold disconnectDocResult
  cases hu : lookupA s.users sid with
  | none =>
      refine ⟨fun s2 h => ?_, fun d2 h => ?_⟩
      · cases h; rfl
      · exact ⟨d2, h, Or.inl rfl⟩
  | some user =>
      by_cases hrem : (eraseA s.users sid).any (fun q => q.2.userId == user.userId) = true
      · by_cases he : (eraseA s.users sid).isEmpty = true
        · cases dOpt with
          | none => refine ⟨fun s2 h => by simp [hrem, he] at h,
              fun d2 h => by simp [hrem, he] at h⟩
          | some d =>
              refine ⟨fun s2 h => by simp [hrem, he] at h, fun d2 h => ?_⟩
              simp only [hrem, he, if_true, Option.map_some'] at h
              exact ⟨d, rfl, by cases h; exact Or.inr rfl⟩
        · refine ⟨fun s2 h => ?_, fun d2 h => ?_⟩
          · simp only [hrem, he, if_true, Bool.false_eq_true, if_false] at h
            cases h; rfl
          · simp only [hrem, he, if_true, Bool.false_eq_true, if_false] at h
            exact ⟨d2, h, Or.inl rfl⟩
      · rw [Bool.not_eq_true] at hrem
        by_cases he : (eraseA s.users sid).isEmpty = true
        · cases dOpt with
          | none => refine ⟨fun s2 h => by simp [hrem, he] at h,
              fun d2 h => by simp [hrem, he] at h⟩
          | some d =>
              refine ⟨fun s2 h => by simp [hrem, he] at h, fun d2 h => ?_⟩
              simp only [hrem, he, Bool.false_eq_true, if_false, if_true,
                Option.map_some] at h
              exact ⟨d, rfl, by cases h; exact Or.inr rfl⟩
        · cases dOpt with
          | none =>
              refine ⟨fun s2 h => ?_, fun d2 h => by simp [hrem, he] at h⟩
              simp only [hrem, he, Bool.false_eq_true, if_false] at h
              cases h; rfl
          | some d =>
              refine ⟨fun s2 h => ?_, fun d2 h => ?_⟩
              · simp only [hrem, he, Bool.false_eq_true, if_false] at h
                cases h; rfl
              · simp only [hrem, he, Bool.false_eq_true, if_false,
                  Option.map_some] at h
                exact ⟨d, rfl, by cases h; exact Or.inl rfl⟩

theorem length_filter_ne_add_countP (l : List UserInfo) (u : UserInfo) :
    (l.filter (fun c => c.userId != u.userId)).length +
      l.countP (fun c => c.userId == u.userId) = l.length := by
  induction l with
  | nil => rfl
  | cons x rest ih =>
      by_cases hx : (x.userId == u.userId) = true
      · have hbne : (x.userId != u.userId) = false := by simp [bne, hx]
        simp only [List.filter_cons, List.countP_cons, hx, hbne, if_true,
          Bool.false_eq_true, if_false, List.length_cons]
        omega
      · have hx2 : (x.userId == u.userId) = false := by simpa using hx
        have hbne : (x.userId != u.userId) = true := by simp [bne, hx2]
        simp only [List.filter_cons, List.countP_cons, hx2, hbne, if_true,
          Bool.false_eq_true, if_false, List.length_cons]
        omega

theorem storeVersionsMono_of_store_eq (st st2 : ServerState)
    (hnd : keysNodup st.store) (h : st2.store = st.store) :
    storeVersionsMono st st2 = true := by
  rw [storeVersionsMono, List.all_eq_true]
  intro p hp
  rw [h, lookupA_of_mem_nodup st.store p hnd hp]
  simp

/-- Claim C4 (amended): persisted versions never decrease under
text-operation, document-save and the disconnect-time flush, PROVIDED every
document-save targets a document with a live session; the amended statement
also records that the live-session-version-dominates-persisted-version
invariant and key well-formedness are preserved by every such operation (so
the monotonicity chains over whole traces), and that every accepted
text-operation increments the session version by exactly one.  (Without the
proviso the original claim is false: see the counterexample, a
document-save with no live session resets the persisted version to 1.) -/
theorem claim_C4_amended (st : ServerState) (op : EditorOp)
    (hwf : wfState st) (hinv : versionInvB st = true)
    (hsave : ∀ d c now ok, op = EditorOp.docSave d c now ok →
      (lookupA st.sessions d).isSome = true) :
    storeVersionsMono st (applyOp st op) = true ∧
    versionInvB (applyOp st op) = true ∧
    wfState (applyOp st op) ∧
    (∀ sid dcId o s2, op = EditorOp.textOp sid dcId o →
      lookupA st.sessions dcId = some s2 →
      lookupA (applyOp st op).sessions dcId =
        some { s2 with content := o, version := s2.version + 1 }) := by
  have hinvP : ∀ p ∈ st.sessions, ∀ dd, lookupA st.store p.1 = some dd →
      dd.version ≤ p.2.version := by
    intro p hp dd hdd
    have hb := List.all_eq_true.mp hinv p hp
    rw [hdd] at hb
    simpa using hb
  cases op with
  | textOp sid dcId o =>
      cases hs : lookupA st.sessions dcId with
      | none =>
          have happ : applyOp st (EditorOp.textOp sid dcId o) = st := by
            simp [applyOp, textOperation, hs]
          rw [happ]
          refine ⟨storeVersionsMono_of_store_eq st st hwf.1 rfl, hinv, hwf, ?_⟩
          intro sid2 d2 o2 s3 heq hs3
          cases heq
          rw [hs] at hs3
          cases hs3
      | some s2 =>
          have happ : applyOp st (EditorOp.textOp sid dcId o) =
              { st with sessions := (setA st.sessions dcId
                  { s2 with content := o, version := s2.version + 1 }) } := by
            simp [applyOp, textOperation, hs]
          rw [happ]
          refine ⟨storeVersionsMono_of_store_eq st _ hwf.1 rfl, ?_,
            ⟨hwf.1, keysNodup_setA _ _ _ hwf.2⟩, ?_⟩
          · rw [versionInvB, List.all_eq_true]
            intro p hp
            rcases mem_setA _ _ _ p hp with hp2 | hp2
            · subst hp2
              cases hdd : lookupA st.store dcId with
              | none => simp [hdd]
              | some dd =>
                  have hle := hinvP (dcId, s2) (lookupA_some_mem _ _ _ hs) dd hdd
                  have hle2 : dd.version ≤ s2.version := hle
                  simp only [hdd]
                  simp
                  omega
            · have hb := List.all_eq_true.mp hinv p hp2
              exact hb
          · intro sid2 d2 o2 s3 heq hs3
            cases heq
            rw [hs] at hs3
            injection hs3 with h3
            subst h3
            exact lookupA_setA_self _ _ _
  | docSave dcId c now2 ok =>
      have hsome := hsave dcId c now2 ok rfl
      have htriv : ∀ st2 : ServerState,
          (∀ sid2 d2 o2 s3, EditorOp.docSave dcId c now2 ok = EditorOp.textOp sid2 d2 o2 →
            lookupA st.sessions d2 = some s3 →
            lookupA st2.sessions d2 = some { s3 with content := o2, version := s3.version + 1 }) := by
        intro st2 sid2 d2 o2 s3 heq
        cases heq
      cases hs : lookupA st.sessions dcId with
      | none =>
          rw [hs] at hsome
          cases hsome
      | some s =>
          have hsessInv : versionInvB
              { st with sessions := setA st.sessions dcId { s with content := c } } = true := by
            rw [versionInvB, List.all_eq_true]
            intro p hp
            rcases mem_setA _ _ _ p hp with hp2 | hp2
            · subst hp2
              cases hdd : lookupA st.store dcId with
              | none => simp [hdd]
              | some dd =>
                  have hle := hinvP (dcId, s) (lookupA_some_mem _ _ _ hs) dd hdd
                  simp only [hdd]
                  simpa using hle
            · exact List.all_eq_true.mp hinv p hp2
          cases ok with
          | false =>
              have happ : applyOp st (EditorOp.docSave dcId c now2 false) =
                  { st with sessions := setA st.sessions dcId { s with content := c } } := by
                simp [applyOp, documentSave, hs]
              rw [happ]
              exact ⟨storeVersionsMono_of_store_eq st _ hwf.1 rfl, hsessInv,
                ⟨hwf.1, keysNodup_setA _ _ _ hwf.2⟩, htriv _⟩
          | true =>
              cases hd : lookupA st.store dcId with
              | none =>
                  have happ : applyOp st (EditorOp.docSave dcId c now2 true) =
                      { st with sessions := setA st.sessions dcId { s with content := c } } := by
                    simp [applyOp, documentSave, hs, hd]
                  rw [happ]
                  exact ⟨storeVersionsMono_of_store_eq st _ hwf.1 rfl, hsessInv,
                    ⟨hwf.1, keysNodup_setA _ _ _ hwf.2⟩, htriv _⟩
              | some d =>
                  have happ : applyOp st (EditorOp.docSave dcId c now2 true) =
                      { st with
                        store := (setA st.store dcId
                          { d with content := c, version := s.version, updatedAt := now2 })
                        sessions := setA st.sessions dcId { s with content := c } } := by
                    simp [applyOp, documentSave, hs, hd]
                  have hdleS : d.version ≤ s.version :=
                    hinvP (dcId, s) (lookupA_some_mem _ _ _ hs) d hd
                  rw [happ]
                  refine ⟨?_, ?_, ⟨keysNodup_setA _ _ _ hwf.1, keysNodup_setA _ _ _ hwf.2⟩,
                    htriv _⟩
                  · rw [storeVersionsMono, List.all_eq_true]
                    intro p hp
                    by_cases hpk : p.1 = dcId
                    · have hpl := lookupA_of_mem_nodup st.store p hwf.1 hp
                      rw [hpk] at hpl
                      rw [hpl] at hd
                      injection hd with hd2
                      rw [hpk, lookupA_setA_self]
                      simp only []
                      simp
                      rw [hd2]
                      omega
                    · rw [lookupA_setA_ne _ _ _ _ (fun he => hpk he.symm),
                        lookupA_of_mem_nodup st.store p hwf.1 hp]
                      simp
                  · rw [versionInvB, List.all_eq_true]
                    intro p hp
                    rcases mem_setA _ _ _ p hp with hp2 | hp2
                    · subst hp2
                      rw [lookupA_setA_self]
                      simp
                    · by_cases hpk : p.1 = dcId
                      · have hpl := lookupA_of_mem_nodup st.sessions p hwf.2 hp2
                        rw [hpk] at hpl
                        rw [hs] at hpl
                        injection hpl with hpl2
                        rw [hpk, lookupA_setA_self]
                        simp only []
                        simp
                        rw [← hpl2]
                      · rw [lookupA_setA_ne _ _ _ _ (fun he => hpk he.symm)]
                        exact List.all_eq_true.mp hinv p hp2
  | disconnectEvt sid now2 =>
      have happ : applyOp st (EditorOp.disconnectEvt sid now2) =
          { st with
            store := (disconnectGo st.store st.sessions sid now2).1
            sessions := (disconnectGo st.store st.sessions sid now2).2.1 } := rfl
      rw [happ]
      have hndGo : keysNodup (disconnectGo st.store st.sessions sid now2).2.1 :=
        List.Nodup.sublist
          (disconnectGo_sessions_keys_sublist st.sessions st.store sid now2) hwf.2
      have hndStore : keysNodup (disconnectGo st.store st.sessions sid now2).1 := by
        rw [keysNodup, disconnectGo_store_keys]
        exact hwf.1
      refine ⟨?_, ?_, ⟨hndStore, hndGo⟩, ?_⟩
      · rw [storeVersionsMono, List.all_eq_true]
        intro p hp
        have hpl := lookupA_of_mem_nodup st.store p hwf.1 hp
        cases hsk : lookupA st.sessions p.1 with
        | none =>
            rw [disconnectGo_store_frame st.sessions st.store sid now2 p.1
              (lookupA_eq_none_keys st.sessions p.1 hsk), hpl]
            simp
        | some s0 =>
            have hat := disconnectGo_at st.sessions st.store sid now2 p.1 s0 hwf.2 hsk
            cases hg : lookupA (disconnectGo st.store st.sessions sid now2).1 p.1 with
            | none => simp
            | some d2 =>
                rw [hg] at hat
                obtain ⟨d, hdopt, hor⟩ :=
                  (disconnectDocResult_version (lookupA st.store p.1) s0 sid now2).2
                    d2 hat.1.symm
                rw [hpl] at hdopt
                injection hdopt with hdopt2
                have hle := hinvP (p.1, s0) (lookupA_some_mem _ _ _ hsk) p.2
                  (by rw [hpl])
                have hle2 : p.2.version ≤ s0.version := hle
                simp only []
                simp
                rcases hor with hor | hor
                · rw [hor, ← hdopt2]
                · rw [hor]
                  omega
      · rw [versionInvB, List.all_eq_true]
        intro p hp
        have hkmem : p.1 ∈ st.sessions.map Prod.fst :=
          (disconnectGo_sessions_keys_sublist st.sessions st.store sid now2).subset
            (List.mem_map.mpr ⟨p, hp, rfl⟩)
        have hsomek := lookupA_isSome_of_mem_keys st.sessions p.1 hkmem
        cases hsk : lookupA st.sessions p.1 with
        | none => rw [hsk] at hsomek; cases hsomek
        | some s0 =>
            have hat := disconnectGo_at st.sessions st.store sid now2 p.1 s0 hwf.2 hsk
            have hplGo := lookupA_of_mem_nodup _ p hndGo hp
            rw [hplGo] at hat
            have hver := (disconnectDocResult_version (lookupA st.store p.1) s0 sid now2).1
              p.2 hat.2.symm
            cases hg : lookupA (disconnectGo st.store st.sessions sid now2).1 p.1 with
            | none => simp
            | some d2 =>
                rw [hg] at hat
                obtain ⟨d, hdopt, hor⟩ :=
                  (disconnectDocResult_version (lookupA st.store p.1) s0 sid now2).2
                    d2 hat.1.symm
                have hle := hinvP (p.1, s0) (lookupA_some_mem _ _ _ hsk) d hdopt
                simp only []
                simp
                rw [hver]
                rcases hor with hor | hor
                · rw [hor]; exact hle
                · rw [hor]
      · intro sid2 d2 o2 s3 heq
        cases heq

theorem claim_C4_amended_witness :
    wfState wStateLastTab ∧ versionInvB wStateLastTab = true ∧
    (∀ d c now ok, EditorOp.docSave "doc_abc1234" "x" 3 true = EditorOp.docSave d c now ok →
      (lookupA wStateLastTab.sessions d).isSome = true) ∧
    storeVersionsMono wStateLastTab
      (applyOp wStateLastTab (EditorOp.docSave "doc_abc1234" "x" 3 true)) = true :=
  ⟨⟨by unfold keysNodup; decide, by unfold keysNodup; decide⟩, by decide,
    fun d c now ok h => by cases h; decide,
    (claim_C4_amended wStateLastTab (EditorOp.docSave "doc_abc1234" "x" 3 true)
      ⟨by unfold keysNodup; decide, by unfold keysNodup; decide⟩ (by decide)
      (fun d c now ok h => by cases h; decide)).1⟩

/-- Claim C6: for a user attached to a document through the closing socket:
if another connection with the same userId remains attached, the disconnect
leaves the stored record (hence the collaborators list) unchanged and only
detaches the socket; if the closing connection was the user's last, the
record loses exactly the entries for that userId (exactly one entry when the
at-most-one-entry-per-user invariant holds) and gains exactly one left
activity entry; and if the users map becomes empty, the session's working
content and version are flushed into the record and the session is evicted
from the cache. -/
theorem claim_C6_disconnect (st : ServerState) (sid : String) (now : Nat)
    (docId : String) (s : Session) (u : UserInfo)
    (hnd : keysNodup st.sessions) (hs : lookupA st.sessions docId = some s)
    (hu : lookupA s.users sid = some u) :
    ((∃ q ∈ s.users, q.1 ≠ sid ∧ q.2.userId = u.userId) →
      lookupA (disconnect st sid now).1.store docId = lookupA st.store docId ∧
      lookupA (disconnect st sid now).1.sessions docId =
        some { s with users := eraseA s.users sid }) ∧
    ((eraseA s.users sid).all (fun q => q.2.userId != u.userId) = true →
      ∀ d, lookupA st.store docId = some d →
        (eraseA s.users sid ≠ [] →
          lookupA (disconnect st sid now).1.store docId =
            some { d with
              collaborators := d.collaborators.filter (fun c => c.userId != u.userId)
              activity := (pushSortSliceActivity d.activity
                { message := "left", user := u, createdAt := now }) } ∧
          lookupA (disconnect st sid now).1.sessions docId =
            some { s with users := eraseA s.users sid }) ∧
        (eraseA s.users sid = [] →
          lookupA (disconnect st sid now).1.store docId =
            some { d with
              collaborators := d.collaborators.filter (fun c => c.userId != u.userId)
              activity := (pushSortSliceActivity d.activity
                { message := "left", user := u, createdAt := now })
              content := s.content
              version := s.version } ∧
          lookupA (disconnect st sid now).1.sessions docId = none) ∧
        (d.collaborators.countP (fun c => c.userId == u.userId) = 1 →
          (d.collaborators.filter (fun c => c.userId != u.userId)).length + 1 =
            d.collaborators.length)) := by
  have hgo := disconnectGo_at st.sessions st.store sid now docId s hnd hs
  have hst : (disconnect st sid now).1.store =
      (disconnectGo st.store st.sessions sid now).1 := rfl
  have hse : (disconnect st sid now).1.sessions =
      (disconnectGo st.store st.sessions sid now).2.1 := rfl
  constructor
  · rintro ⟨q, hqmem, hqsid, hqid⟩
    have hq2 : q ∈ eraseA s.users sid := mem_eraseA_of_key_ne _ _ _ hqmem hqsid
    have hrem : (eraseA s.users sid).any (fun r => r.2.userId == u.userId) = true :=
      List.any_eq_true.mpr ⟨q, hq2, by simp [hqid]⟩
    have hne : (eraseA s.users sid).isEmpty = false :=
      List.isEmpty_eq_false.mpr (List.ne_nil_of_mem hq2)
    have hdres : disconnectDocResult (lookupA st.store docId) s sid now =
        (lookupA st.store docId, some { s with users := eraseA s.users sid }) := by
      unfold disconnectDocResult
      simp [hu, hrem, hne]
    rw [hst, hse, hgo.1, hgo.2, hdres]
    exact ⟨rfl, rfl⟩
  · intro hall d hd
    have hrem : (eraseA s.users sid).any (fun q => q.2.userId == u.userId) = false := by
      rw [List.any_eq_false]
      intro x hx
      have hx2 := List.all_eq_true.mp hall x hx
      simp only [bne_iff_ne, ne_eq] at hx2
      simp [hx2]
    refine ⟨?_, ?_, ?_⟩
    · intro hnnil
      have hempty : (eraseA s.users sid).isEmpty = false :=
        List.isEmpty_eq_false.mpr hnnil
      have hdres : disconnectDocResult (lookupA st.store docId) s sid now =
          (some { d with
              collaborators := d.collaborators.filter (fun c => c.userId != u.userId)
              activity := (pushSortSliceActivity d.activity
                { message := "left", user := u, createdAt := now }) },
            some { s with users := eraseA s.users sid }) := by
        unfold disconnectDocResult
        simp [hu, hrem, hempty, hd, userInfo_eta]
      rw [hst, hse, hgo.1, hgo.2, hdres]
      exact ⟨rfl, rfl⟩
    · intro hnil
      have hempty : (eraseA s.users sid).isEmpty = true := by
        rw [hnil]; rfl
      have hdres : disconnectDocResult (lookupA st.store docId) s sid now =
          (some { d with
              collaborators := d.collaborators.filter (fun c => c.userId != u.userId)
              activity := (pushSortSliceActivity d.activity
                { message := "left", user := u, createdAt := now })
              content := s.content
              version := s.version }, none) := by
        unfold disconnectDocResult
        simp [hu, hrem, hempty, hd, userInfo_eta]
      rw [hst, hse, hgo.1, hgo.2, hdres]
      exact ⟨rfl, rfl⟩
    · intro hcount
      have hlen := length_filter_ne_add_countP d.collaborators u
      omega

theorem claim_C6_disconnect_witness :
    keysNodup wStateTwoTabs.sessions ∧
    lookupA wStateTwoTabs.sessions "doc_abc1234" = some wSessionTwoTabs ∧
    lookupA wSessionTwoTabs.users "s1" = some wUser ∧
    (lookupA (disconnect wStateTwoTabs "s1" 11).1.store "doc_abc1234" =
        lookupA wStateTwoTabs.store "doc_abc1234" ∧
      lookupA (disconnect wStateTwoTabs "s1" 11).1.sessions "doc_abc1234" =
        some { wSessionTwoTabs with users := eraseA wSessionTwoTabs.users "s1" }) ∧
    (lookupA (disconnect wStateLastTab "s2" 12).1.store "doc_abc1234" =
        some { wDoc with
          collaborators := wDoc.collaborators.filter (fun c => c.userId != wUser.userId)
          activity := (pushSortSliceActivity wDoc.activity
            { message := "left", user := wUser, createdAt := 12 })
          content := wSessionLastTab.content
          version := wSessionLastTab.version } ∧
      lookupA (disconnect wStateLastTab "s2" 12).1.sessions "doc_abc1234" = none) :=
  ⟨by unfold keysNodup; decide, by decide, by decide,
    (claim_C6_disconnect wStateTwoTabs "s1" 11 "doc_abc1234" wSessionTwoTabs wUser
        (by unfold keysNodup; decide) (by decide) (by decide)).1
      ⟨("s2", wUser), by decide, by decide, rfl⟩,
    (((claim_C6_disconnect wStateLastTab "s2" 12 "doc_abc1234" wSessionLastTab wUser
        (by unfold keysNodup; decide) (by decide) (by decide)).2
      (by decide) wDoc (by decide)).2.1 (by decide))⟩

theorem claim_C9_amended_witness :
    isValidDocumentId "doc_abc1234" = true ∧
    "!!" ∉ wState.joining ∧
    isValidDocumentId "!!" = false ∧
    joinDocument wState "s1" "!!" wUser 0 =
      (wState, [(EmitTarget.caller,
        ServerEvent.errorEvent "join-error" "Invalid document ID format")]) :=
  ⟨(claim_C9_amended.1 "doc_abc1234").mpr
      (Or.inr ⟨['a', 'b', 'c', '1', '2', '3', '4'], by decide, by decide, by decide⟩),
    by decide, by decide,
    claim_C9_amended.2 wState "s1" "!!" wUser 0 (by decide) (by decide)⟩

theorem filter_length_set {α : Type} (l : List α) (i : Nat) (t t2 : α) (p : α → Bool)
    (h : l[i]? = some t) :
    (List.filter p (l.set i t2)).length + (if p t then 1 else 0) =
      (List.filter p l).length + (if p t2 then 1 else 0) := by
  induction l generalizing i with
  | nil => simp at h
  | cons x rest ih =>
      cases i with
      | zero =>
          simp only [List.getElem?_cons_zero] at h
          injection h with h2
          rw [← h2]
          simp only [List.set_cons_zero, List.filter_cons]
          by_cases h1 : p x <;> by_cases hb : p t2 <;> simp [h1, hb]
      | succ n =>
          simp only [List.getElem?_cons_succ] at h
          have hr := ih n h
          simp only [List.set_cons_succ, List.filter_cons]
          by_cases hx : p x <;> by_cases h1 : p t <;> by_cases h2 : p t2 <;>
            simp [hx, h1, h2] at hr ⊢ <;> omega

theorem createPcCount_le_critCount (s : JoinSys) : createPcCount s ≤ critCount s := by
  rw [createPcCount, critCount, ← List.countP_eq_length_filter,
    ← List.countP_eq_length_filter]
  refine List.countP_mono_left ?_
  intro a _ ha
  cases hpa : a.pc <;> simp_all [inCrit]

theorem filter_length_set2 {α : Type} (l : List α) (i : Nat) (t t2 : α) (p : α → Bool)
    (h : l[i]? = some t) (a b : Nat)
    (ha : (if p t then 1 else 0) = a) (hb : (if p t2 then 1 else 0) = b) :
    (List.filter p (l.set i t2)).length + a = (List.filter p l).length + b := by
  rw [← ha, ← hb]
  exact filter_length_set l i t t2 p h

theorem jstep_JInv (s : JoinSys) (i : Nat) (ok : Bool) (h : JInv s) :
    JInv (jstep s i ok) := by
  obtain ⟨h1, h2, h3, h4⟩ := h
  simp only [critCount] at h1 h2
  simp only [createPcCount] at h3
  simp only [createdCount] at h4
  cases ht : s.threads[i]? with
  | none =>
      have hstep : jstep s i ok = s := by
        unfold jstep
        rw [ht]
      rw [hstep]
      exact ⟨h1, h2, h3, h4⟩
  | some t =>
      have htmem : t ∈ s.threads := List.getElem?_mem ht
      cases hpc : t.pc with
      | start =>
          by_cases hl : s.locked = true
          · simp only [jstep, ht, hpc]
            rw [if_pos hl]
            have hc := filter_length_set2 s.threads i t { t with pc := JoinPC.dropped }
              (fun th => inCrit th.pc) ht 0 0 (by simp only [hpc]; rfl) rfl
            have hcp := filter_length_set2 s.threads i t { t with pc := JoinPC.dropped }
              (fun th => th.pc == JoinPC.create) ht 0 0 (by simp only [hpc]; rfl) rfl
            have hcd := filter_length_set2 s.threads i t { t with pc := JoinPC.dropped }
              (fun th => th.created) ht (if t.created = true then 1 else 0)
              (if t.created = true then 1 else 0) rfl rfl
            have hcount := h2.mp hl
            refine ⟨?_, ?_, ?_, ?_⟩ <;>
              simp only [critCount, createPcCount, createdCount]
            · omega
            · exact ⟨fun _ => by omega, fun _ => hl⟩
            · intro hex
              have := h3 hex
              omega
            · omega
          · simp only [jstep, ht, hpc]
            rw [if_neg hl]
            have hc := filter_length_set2 s.threads i t { t with pc := JoinPC.find }
              (fun th => inCrit th.pc) ht 0 1 (by simp only [hpc]; rfl) rfl
            have hcp := filter_length_set2 s.threads i t { t with pc := JoinPC.find }
              (fun th => th.pc == JoinPC.create) ht 0 0 (by simp only [hpc]; rfl) rfl
            have hcd := filter_length_set2 s.threads i t { t with pc := JoinPC.find }
              (fun th => th.created) ht (if t.created = true then 1 else 0)
              (if t.created = true then 1 else 0) rfl rfl
            have hne1 : ¬ ((List.filter (fun th => inCrit th.pc) s.threads).length = 1) :=
              fun hone => hl (h2.mpr hone)
            refine ⟨?_, ?_, ?_, ?_⟩ <;>
              simp only [critCount, createPcCount, createdCount]
            · omega
            · exact ⟨fun _ => by omega, fun _ => trivial⟩
            · intro hex
              have := h3 hex
              omega
            · omega
      | find =>
          by_cases hok : ok = true
          · by_cases hex : s.docExists = true
            · simp only [jstep, ht, hpc]
              rw [if_pos hok, if_pos hex]
              have hc := filter_length_set2 s.threads i t { t with pc := JoinPC.post }
                (fun th => inCrit th.pc) ht 1 1 (by simp only [hpc]; rfl) rfl
              have hcp := filter_length_set2 s.threads i t { t with pc := JoinPC.post }
                (fun th => th.pc == JoinPC.create) ht 0 0 (by simp only [hpc]; rfl) rfl
              have hcd := filter_length_set2 s.threads i t { t with pc := JoinPC.post }
                (fun th => th.created) ht (if t.created = true then 1 else 0)
                (if t.created = true then 1 else 0) rfl rfl
              refine ⟨?_, ?_, ?_, ?_⟩ <;>
                simp only [critCount, createPcCount, createdCount]
              · omega
              · rw [h2]
                omega
              · intro hex2
                have := h3 hex2
                omega
              · omega
            · simp only [jstep, ht, hpc]
              rw [if_pos hok, if_neg hex]
              have hc := filter_length_set2 s.threads i t { t with pc := JoinPC.create }
                (fun th => inCrit th.pc) ht 1 1 (by simp only [hpc]; rfl) rfl
              have hcp := filter_length_set2 s.threads i t { t with pc := JoinPC.create }
                (fun th => th.pc == JoinPC.create) ht 0 1 (by simp only [hpc]; rfl) rfl
              have hcd := filter_length_set2 s.threads i t { t with pc := JoinPC.create }
                (fun th => th.created) ht (if t.created = true then 1 else 0)
                (if t.created = true then 1 else 0) rfl rfl
              refine ⟨?_, ?_, ?_, ?_⟩ <;>
                simp only [critCount, createPcCount, createdCount]
              · omega
              · rw [h2]
                omega
              · intro hex2
                exact absurd hex2 hex
              · omega
          · simp only [jstep, ht, hpc]
            rw [if_neg hok]
            have hc := filter_length_set2 s.threads i t { t with pc := JoinPC.release }
              (fun th => inCrit th.pc) ht 1 1 (by simp only [hpc]; rfl) rfl
            have hcp := filter_length_set2 s.threads i t { t with pc := JoinPC.release }
              (fun th => th.pc == JoinPC.create) ht 0 0 (by simp only [hpc]; rfl) rfl
            have hcd := filter_length_set2 s.threads i t { t with pc := JoinPC.release }
              (fun th => th.created) ht (if t.created = true then 1 else 0)
              (if t.created = true then 1 else 0) rfl rfl
            refine ⟨?_, ?_, ?_, ?_⟩ <;>
              simp only [critCount, createPcCount, createdCount]
            · omega
            · rw [h2]
              omega
            · intro hex2
              have := h3 hex2
              omega
            · omega
      | create =>
          have htcrit : 1 ≤ (s.threads.filter (fun th => inCrit th.pc)).length := by
            have hm : t ∈ s.threads.filter (fun th => inCrit th.pc) :=
              List.mem_filter.mpr ⟨htmem, by rw [hpc]; rfl⟩
            exact List.length_pos_of_mem hm
          have htcp : 1 ≤ (s.threads.filter (fun th => th.pc == JoinPC.create)).length := by
            have hm : t ∈ s.threads.filter (fun th => th.pc == JoinPC.create) :=
              List.mem_filter.mpr ⟨htmem, by rw [hpc]; rfl⟩
            exact List.length_pos_of_mem hm
          have hexF : s.docExists = false := by
            cases hexq : s.docExists with
            | false => rfl
            | true =>
                have := h3 hexq
                omega
          by_cases hg : (ok && !s.docExists) = true
          · simp only [jstep, ht, hpc]
            rw [if_pos hg]
            have htcreated : t.created = false := by
              cases hcq : t.created with
              | false => rfl
              | true =>
                  have hmemf : t ∈ s.threads.filter (fun th => th.created) :=
                    List.mem_filter.mpr ⟨htmem, hcq⟩
                  have hpos := List.length_pos_of_mem hmemf
                  rw [hexF] at h4
                  simp only [Bool.false_eq_true, if_false] at h4
                  omega
            have hc := filter_length_set2 s.threads i t
              { t with pc := JoinPC.post, created := true }
              (fun th => inCrit th.pc) ht 1 1 (by simp only [hpc]; rfl) rfl
            have hcp := filter_length_set2 s.threads i t
              { t with pc := JoinPC.post, created := true }
              (fun th => th.pc == JoinPC.create) ht 1 0 (by simp only [hpc]; rfl) rfl
            have hcd := filter_length_set2 s.threads i t
              { t with pc := JoinPC.post, created := true }
              (fun th => th.created) ht 0 1 (by simp only [htcreated]; rfl) rfl
            have hmono := createPcCount_le_critCount s
            simp only [createPcCount, critCount] at hmono
            rw [hexF] at h4
            simp only [Bool.false_eq_true, if_false] at h4
            refine ⟨?_, ?_, ?_, ?_⟩ <;>
              simp only [critCount, createPcCount, createdCount]
            · omega
            · rw [h2]
              omega
            · intro _
              omega
            · simp only [if_true]
              omega
          · simp only [jstep, ht, hpc]
            rw [if_neg hg]
            have hc := filter_length_set2 s.threads i t { t with pc := JoinPC.release }
              (fun th => inCrit th.pc) ht 1 1 (by simp only [hpc]; rfl) rfl
            have hcp := filter_length_set2 s.threads i t { t with pc := JoinPC.release }
              (fun th => th.pc == JoinPC.create) ht 1 0 (by simp only [hpc]; rfl) rfl
            have hcd := filter_length_set2 s.threads i t { t with pc := JoinPC.release }
              (fun th => th.created) ht (if t.created = true then 1 else 0)
              (if t.created = true then 1 else 0) rfl rfl
            refine ⟨?_, ?_, ?_, ?_⟩ <;>
              simp only [critCount, createPcCount, createdCount]
            · omega
            · rw [h2]
              omega
            · intro hex2
              rw [hex2] at hexF
              cases hexF
            · omega
      | post =>
          simp only [jstep, ht, hpc]
          have hc := filter_length_set2 s.threads i t { t with pc := JoinPC.release }
            (fun th => inCrit th.pc) ht 1 1 (by simp only [hpc]; rfl) rfl
          have hcp := filter_length_set2 s.threads i t { t with pc := JoinPC.release }
            (fun th => th.pc == JoinPC.create) ht 0 0 (by simp only [hpc]; rfl) rfl
          have hcd := filter_length_set2 s.threads i t { t with pc := JoinPC.release }
            (fun th => th.created) ht (if t.created = true then 1 else 0)
            (if t.created = true then 1 else 0) rfl rfl
          refine ⟨?_, ?_, ?_, ?_⟩ <;>
            simp only [critCount, createPcCount, createdCount]
          · omega
          · rw [h2]
            omega
          · intro hex2
            have := h3 hex2
            omega
          · omega
      | release =>
          simp only [jstep, ht, hpc]
          have htcrit : 1 ≤ (s.threads.filter (fun th => inCrit th.pc)).length := by
            have hm : t ∈ s.threads.filter (fun th => inCrit th.pc) :=
              List.mem_filter.mpr ⟨htmem, by rw [hpc]; rfl⟩
            exact List.length_pos_of_mem hm
          have hc := filter_length_set2 s.threads i t { t with pc := JoinPC.done }
            (fun th => inCrit th.pc) ht 1 0 (by simp only [hpc]; rfl) rfl
          have hcp := filter_length_set2 s.threads i t { t with pc := JoinPC.done }
            (fun th => th.pc == JoinPC.create) ht 0 0 (by simp only [hpc]; rfl) rfl
          have hcd := filter_length_set2 s.threads i t { t with pc := JoinPC.done }
            (fun th => th.created) ht (if t.created = true then 1 else 0)
            (if t.created = true then 1 else 0) rfl rfl
          refine ⟨?_, ?_, ?_, ?_⟩ <;>
            simp only [critCount, createPcCount, createdCount]
          · omega
          · constructor
            · intro hx
              exact absurd hx (by decide)
            · intro hcount
              omega
          · intro hex2
            have := h3 hex2
            omega
          · omega
      | done =>
          have hstep : jstep s i ok = s := by
            unfold jstep
            rw [ht]
            simp [hpc]
          rw [hstep]
          exact ⟨h1, h2, h3, h4⟩
      | dropped =>
          have hstep : jstep s i ok = s := by
            unfold jstep
            rw [ht]
            simp [hpc]
          rw [hstep]
          exact ⟨h1, h2, h3, h4⟩

theorem jrun_JInv (sched : List (Nat × Bool)) (s : JoinSys) (h : JInv s) :
    JInv (jrun sched s) := by
  induction sched generalizing s with
  | nil => exact h
  | cons p rest ih => exact ih _ (jstep_JInv s p.1 p.2 h)

theorem jstep_JInvF (s : JoinSys) (i : Nat) (h : JInvF s) : JInvF (jstep s i true) := by
  obtain ⟨hinv, hLp, hLd, hLdone⟩ := h
  have hinv2 := jstep_JInv s i true hinv
  cases ht : s.threads[i]? with
  | none =>
      have hstep : jstep s i true = s := by
        unfold jstep
        rw [ht]
      rw [hstep]
      exact ⟨hinv, hLp, hLd, hLdone⟩
  | some t =>
      have htmem : t ∈ s.threads := List.getElem?_mem ht
      cases hpc : t.pc with
      | start =>
          by_cases hl : s.locked = true
          · have hstep : jstep s i true =
                { s with threads := s.threads.set i { t with pc := JoinPC.dropped } } := by
              simp only [jstep, ht, hpc]
              rw [if_pos hl]
            rw [hstep] at hinv2 ⊢
            refine ⟨hinv2, ?_, ?_, ?_⟩
            · intro t2 ht2 hpr
              rcases List.mem_or_eq_of_mem_set ht2 with hm | hm
              · exact hLp t2 hm hpr
              · rw [hm] at hpr
                rcases hpr with hpr | hpr <;> cases hpr
            · intro _
              exact Or.inl hl
            · intro hex
              obtain ⟨t2, ht2, hdone⟩ := hex
              rcases List.mem_or_eq_of_mem_set ht2 with hm | hm
              · exact hLdone ⟨t2, hm, hdone⟩
              · rw [hm] at hdone
                cases hdone
          · have hstep : jstep s i true =
                { s with locked := true
                         threads := s.threads.set i { t with pc := JoinPC.find } } := by
              simp only [jstep, ht, hpc]
              rw [if_neg hl]
            rw [hstep] at hinv2 ⊢
            refine ⟨hinv2, ?_, ?_, ?_⟩
            · intro t2 ht2 hpr
              rcases List.mem_or_eq_of_mem_set ht2 with hm | hm
              · exact hLp t2 hm hpr
              · rw [hm] at hpr
                rcases hpr with hpr | hpr <;> cases hpr
            · intro _
              exact Or.inl rfl
            · intro hex
              obtain ⟨t2, ht2, hdone⟩ := hex
              rcases List.mem_or_eq_of_mem_set ht2 with hm | hm
              · exact hLdone ⟨t2, hm, hdone⟩
              · rw [hm] at hdone
                cases hdone
      | find =>
          by_cases hex : s.docExists = true
          · have hstep : jstep s i true =
                { s with threads := s.threads.set i { t with pc := JoinPC.post } } := by
              simp only [jstep, ht, hpc, if_true]
              rw [if_pos hex]
            rw [hstep] at hinv2 ⊢
            refine ⟨hinv2, fun _ _ _ => hex, fun _ => Or.inr hex, fun _ => hex⟩
          · have hstep : jstep s i true =
                { s with threads := s.threads.set i { t with pc := JoinPC.create } } := by
              simp only [jstep, ht, hpc, if_true]
              rw [if_neg hex]
            rw [hstep] at hinv2 ⊢
            refine ⟨hinv2, ?_, ?_, ?_⟩
            · intro t2 ht2 hpr
              rcases List.mem_or_eq_of_mem_set ht2 with hm | hm
              · exact hLp t2 hm hpr
              · rw [hm] at hpr
                rcases hpr with hpr | hpr <;> cases hpr
            · intro hexd
              obtain ⟨t2, ht2, hdrop⟩ := hexd
              rcases List.mem_or_eq_of_mem_set ht2 with hm | hm
              · exact hLd ⟨t2, hm, hdrop⟩
              · rw [hm] at hdrop
                cases hdrop
            · intro hexd
              obtain ⟨t2, ht2, hdone⟩ := hexd
              rcases List.mem_or_eq_of_mem_set ht2 with hm | hm
              · exact hLdone ⟨t2, hm, hdone⟩
              · rw [hm] at hdone
                cases hdone
      | create =>
          by_cases hg : (true && !s.docExists) = true
          · have hstep : jstep s i true =
                { s with docExists := true
                         threads := s.threads.set i
                           { t with pc := JoinPC.post, created := true } } := by
              simp only [jstep, ht, hpc]
              rw [if_pos hg]
            rw [hstep] at hinv2 ⊢
            exact ⟨hinv2, fun _ _ _ => rfl, fun _ => Or.inr rfl, fun _ => rfl⟩
          · have hexT : s.docExists = true := by
              rcases hexq : s.docExists with hq | hq
              · rw [hexq] at hg
                exact absurd rfl hg
              · rfl
            have hstep : jstep s i true =
                { s with threads := s.threads.set i { t with pc := JoinPC.release } } := by
              simp only [jstep, ht, hpc]
              rw [if_neg hg]
            rw [hstep] at hinv2 ⊢
            refine ⟨hinv2, fun _ _ _ => hexT, fun _ => Or.inr hexT, fun _ => hexT⟩
      | post =>
          have hexT : s.docExists = true := hLp t htmem (Or.inl hpc)
          have hstep : jstep s i true =
              { s with threads := s.threads.set i { t with pc := JoinPC.release } } := by
            simp only [jstep, ht, hpc]
          rw [hstep] at hinv2 ⊢
          refine ⟨hinv2, fun _ _ _ => hexT, fun _ => Or.inr hexT, fun _ => hexT⟩
      | release =>
          have hexT : s.docExists = true := hLp t htmem (Or.inr hpc)
          have hstep : jstep s i true =
              { s with locked := false
                       threads := s.threads.set i { t with pc := JoinPC.done } } := by
            simp only [jstep, ht, hpc]
          rw [hstep] at hinv2 ⊢
          refine ⟨hinv2, fun _ _ _ => hexT, fun _ => Or.inr hexT, fun _ => hexT⟩
      | done =>
          have hstep : jstep s i true = s := by
            unfold jstep
            rw [ht]
            simp [hpc]
          rw [hstep]
          exact ⟨hinv, hLp, hLd, hLdone⟩
      | dropped =>
          have hstep : jstep s i true = s := by
            unfold jstep
            rw [ht]
            simp [hpc]
          rw [hstep]
          exact ⟨hinv, hLp, hLd, hLdone⟩

theorem jrun_JInvF (sched : List (Nat × Bool)) (s : JoinSys)
    (hff : failFree sched = true) (h : JInvF s) : JInvF (jrun sched s) := by
  induction sched generalizing s with
  | nil => exact h
  | cons p rest ih =>
      obtain ⟨i, okv⟩ := p
      rw [failFree, List.all_cons, Bool.and_eq_true] at hff
      obtain ⟨hp, hrest⟩ := hff
      have hp2 : okv = true := hp
      subst hp2
      rw [jrun]
      exact ih _ hrest (jstep_JInvF s i h)

theorem jinit_JInvF (n : Nat) : JInvF (jinit n) := by
  have hfilter : ∀ p : JoinThread → Bool,
      p { pc := JoinPC.start, created := false } = false →
      ((jinit n).threads.filter p).length = 0 := by
    intro p hp
    rw [jinit]
    simp only []
    induction n with
    | zero => rfl
    | succ m ih =>
        rw [List.replicate_succ, List.filter_cons, hp]
        simpa using ih
  refine ⟨⟨?_, ?_, ?_, ?_⟩, ?_, ?_, ?_⟩
  · rw [critCount, hfilter _ rfl]
    omega
  · rw [critCount, hfilter _ rfl]
    constructor
    · intro hx
      cases hx
    · intro hx
      cases hx
  · intro hx
    cases hx
  · rw [createdCount, hfilter _ rfl]
    rfl
  · intro t2 ht2 hpr
    have := List.eq_of_mem_replicate ht2
    rw [this] at hpr
    rcases hpr with hpr | hpr <;> cases hpr
  · intro hex
    obtain ⟨t2, ht2, hdrop⟩ := hex
    have := List.eq_of_mem_replicate ht2
    rw [this] at hdrop
    cases hdrop
  · intro hex
    obtain ⟨t2, ht2, hdone⟩ := hex
    have := List.eq_of_mem_replicate ht2
    rw [this] at hdone
    cases hdone

theorem jstep_threads_length (s : JoinSys) (i : Nat) (ok : Bool) :
    (jstep s i ok).threads.length = s.threads.length := by
  unfold jstep
  cases ht : s.threads[i]? with
  | none => rfl
  | some t =>
      cases hpc : t.pc <;> simp [hpc] <;>
        (try by_cases hl : s.locked = true) <;>
        (try by_cases hok : ok = true) <;>
        (try by_cases hex : s.docExists = true) <;>
        (try by_cases hg : (ok && !s.docExists) = true) <;>
        simp_all [List.length_set]

theorem jrun_threads_length (sched : List (Nat × Bool)) (s : JoinSys) :
    (jrun sched s).threads.length = s.threads.length := by
  induction sched generalizing s with
  | nil => rfl
  | cons p rest ih =>
      rw [jrun, ih, jstep_threads_length]

theorem finishedAll_critCount_zero (s : JoinSys) (hfin : finishedAll s = true) :
    critCount s = 0 := by
  rw [critCount, List.length_eq_zero, List.filter_eq_nil_iff]
  intro a ha
  have hb := List.all_eq_true.mp hfin a ha
  cases hq : a.pc <;> simp_all [inCrit]

/-- Claim C1: join arbitration for one never-before-seen document id, with
the event loop interleaving the N concurrent handler invocations only at
the awaited store calls.  (i) At every reachable point at most one
find-or-create sequence is in flight; (ii) whenever every request has
finished, the identifier has been removed from the lock set — release
happens on every exit path, success and failure alike; (iii) in every
failure-free complete run with at least one request, exactly one Document
record is created; (iv) a join request that arrives while the lock is held
is dropped silently: its only effect is marking that thread dropped, with
no store access and no emission. -/
theorem claim_C1_joinArbitrator :
    (∀ (n : Nat) (sched : List (Nat × Bool)),
        critCount (jrun sched (jinit n)) ≤ 1) ∧
    (∀ (n : Nat) (sched : List (Nat × Bool)),
        finishedAll (jrun sched (jinit n)) = true →
        (jrun sched (jinit n)).locked = false) ∧
    (∀ (n : Nat) (sched : List (Nat × Bool)),
        failFree sched = true → finishedAll (jrun sched (jinit n)) = true →
        1 ≤ n → createdCount (jrun sched (jinit n)) = 1) ∧
    (∀ (s : JoinSys) (i : Nat) (ok : Bool) (t : JoinThread),
        s.threads[i]? = some t → t.pc = JoinPC.start → s.locked = true →
        jstep s i ok =
          { s with threads := s.threads.set i { t with pc := JoinPC.dropped } }) := by
  have hlockfree : ∀ (n : Nat) (sched : List (Nat × Bool)),
      finishedAll (jrun sched (jinit n)) = true →
      (jrun sched (jinit n)).locked = false := by
    intro n sched hfin
    have hinv := jrun_JInv sched (jinit n) (jinit_JInvF n).1
    have hc0 := finishedAll_critCount_zero _ hfin
    cases hl : (jrun sched (jinit n)).locked with
    | false => rfl
    | true =>
        have := hinv.2.1.mp hl
        omega
  refine ⟨?_, hlockfree, ?_, ?_⟩
  · intro n sched
    exact (jrun_JInv sched (jinit n) (jinit_JInvF n).1).1
  · intro n sched hff hfin hn
    have hF := jrun_JInvF sched (jinit n) hff (jinit_JInvF n)
    have hlen : (jrun sched (jinit n)).threads.length = n := by
      rw [jrun_threads_length, jinit]
      exact List.length_replicate _ _
    have hne : (jrun sched (jinit n)).threads ≠ [] := by
      intro hnil
      rw [hnil] at hlen
      simp at hlen
      omega
    obtain ⟨t0, ht0⟩ := List.exists_mem_of_ne_nil _ hne
    have hb := List.all_eq_true.mp hfin t0 ht0
    have hex : (jrun sched (jinit n)).docExists = true := by
      rw [Bool.or_eq_true, beq_iff_eq, beq_iff_eq] at hb
      rcases hb with hb | hb
      · exact hF.2.2.2 ⟨t0, ht0, hb⟩
      · rcases hF.2.2.1 ⟨t0, ht0, hb⟩ with hlock | hexx
        · rw [hlockfree n sched hfin] at hlock
          cases hlock
        · exact hexx
    have h4 := hF.1.2.2.2
    rw [hex] at h4
    simpa using h4
  · intro s i ok t ht hpc hl
    simp only [jstep, ht, hpc]
    rw [if_pos hl]

theorem claim_C1_joinArbitrator_witness :
    failFree [(0, true), (1, true), (2, true), (0, true), (0, true), (0, true), (0, true)]
      = true ∧
    finishedAll (jrun
      [(0, true), (1, true), (2, true), (0, true), (0, true), (0, true), (0, true)]
      (jinit 3)) = true ∧
    1 ≤ 3 ∧
    createdCount (jrun
      [(0, true), (1, true), (2, true), (0, true), (0, true), (0, true), (0, true)]
      (jinit 3)) = 1 ∧
    critCount (jrun
      [(0, true), (1, true), (2, true), (0, true), (0, true), (0, true), (0, true)]
      (jinit 3)) ≤ 1 :=
  ⟨by decide, by decide, by decide,
    claim_C1_joinArbitrator.2.2.1 3
      [(0, true), (1, true), (2, true), (0, true), (0, true), (0, true), (0, true)]
      (by decide) (by decide) (by decide),
    claim_C1_joinArbitrator.1 3
      [(0, true), (1, true), (2, true), (0, true), (0, true), (0, true), (0, true)]⟩

end CollabEditor


